import Mathlib

/-!
# Verification of the nanonis-rs message codec and transaction engine

A shallow embedding of the nanonis-rs client library core: the tagged value
model (`src/types.rs`), the error taxonomy (`src/error.rs`), the wire codec
and the transaction engine.  The codec and transaction engine live in the
crate modules `protocol` and `client` whose sources are not part of this
snapshot (only their callers are), so those two components are modelled from
the specification; every definition taken from a source file is annotated
with its origin.

Modelling conventions:
* machine integers are `Nat` / `Int` with explicit range side conditions
  (`u16` is a `Nat` below `2 ^ 16`, `i16` an `Int` in `[-2 ^ 15, 2 ^ 15)`, ...);
* IEEE-754 `f32` / `f64` payloads are represented by their 4- resp. 8-byte
  big-endian bit patterns (a `Nat` below `2 ^ 32` resp. `2 ^ 64`), because the
  codec treats a float as an opaque fixed-width byte group
  (`to_be_bytes` / `from_be_bytes` are mutually inverse on bit patterns);
* a Rust `String` is represented by its UTF-8 byte sequence (`List Nat`),
  mirroring the `String` type invariant that the bytes are valid UTF-8;
* wire bytes are `List Nat`, each element intended to be below 256;
* blocking TCP I/O is abstracted by a `WireOutcome` parameter describing how
  the single request/response exchange of one transaction went.
-/

namespace Nanonis

deriving instance DecidableEq for Except

/-- Big-endian byte serialization: `beBytes w n` is the `w`-byte big-endian
representation of `n % 256 ^ w` (the protocol transmits all fixed-width
scalars in big-endian order). -/
def beBytes : Nat → Nat → List Nat
  | 0, _ => []
  | w + 1, n => beBytes w (n / 256) ++ [n % 256]

/-- Big-endian byte deserialization, inverse to `beBytes` on in-range input. -/
def fromBE (bs : List Nat) : Nat := bs.foldl (fun a b => a * 256 + b) 0

/-- Error taxonomy, from `src/error.rs` (`NanonisError`): the four documented
categories `Io`, `Timeout`, `Protocol`, `Server`.  The constructors `Type` and
`InvalidInput` additionally appear in this snapshot in `src/types.rs`
(per-variant accessors and enum conversions construct them), so the embedded
enum carries them as well; the `std::io::Error` source payload of `Io` is
abstracted to its context string. -/
inductive NanonisError where
  | Io (context : String)
  | Timeout (what : String)
  | Protocol (msg : String)
  | Server (code : Int) (message : String)
  | Type (msg : String)
  | InvalidInput (msg : String)
deriving DecidableEq, Repr

/-- From `src/error.rs`: `NanonisError::is_io`. -/
def NanonisError.isIoError : NanonisError → Bool
  | .Io _ => true
  | _ => false

/-- From `src/error.rs`: `NanonisError::is_timeout`. -/
def NanonisError.is_timeout : NanonisError → Bool
  | .Timeout _ => true
  | _ => false

/-- From `src/error.rs`: `NanonisError::is_protocol`. -/
def NanonisError.is_protocol : NanonisError → Bool
  | .Protocol _ => true
  | _ => false

/-- From `src/error.rs`: `NanonisError::is_server_error`. -/
def NanonisError.is_server_error : NanonisError → Bool
  | .Server _ _ => true
  | _ => false

/-- From `src/error.rs`: `NanonisError::error_code`. -/
def NanonisError.error_code : NanonisError → Option Int
  | .Server code _ => some code
  | _ => none

/-- An error value sits in exactly one of the four taxonomy categories of
`src/error.rs` (spec section 7): Io, Timeout, Protocol, Server. -/
def inExactlyOneCategory (e : NanonisError) : Prop :=
  [e.isIoError, e.is_timeout, e.is_protocol, e.is_server_error].count true = 1

instance (e : NanonisError) : Decidable (inExactlyOneCategory e) := by
  unfold inExactlyOneCategory; infer_instance

/-- Value model, from `src/types.rs` (`NanonisValue`): one constructor per
wire-representable shape.  Scalar payload representations follow the file
header conventions (bit patterns for floats, `Nat` / `Int` for integers,
UTF-8 byte lists for strings). -/
inductive NanonisValue where
  | U16 (v : Nat)
  | I16 (v : Int)
  | U32 (v : Nat)
  | I32 (v : Int)
  | F32 (bits : Nat)
  | F64 (bits : Nat)
  | String (bytes : List Nat)
  | ArrayU16 (vs : List Nat)
  | ArrayI16 (vs : List Int)
  | ArrayU32 (vs : List Nat)
  | ArrayI32 (vs : List Int)
  | ArrayF32 (vs : List Nat)
  | ArrayF64 (vs : List Nat)
  | ArrayString (vs : List (List Nat))
  | Array2DF32 (rows : List (List Nat))
deriving DecidableEq, Repr

/-- The tag (variant name) of a value, as printed by the Rust `Debug`
derivation that `src/types.rs` interpolates into its error messages
(the payload rendering of `Debug` output is abstracted away, keeping the
variant name that identifies the tag). -/
def tagName : NanonisValue → String
  | .U16 _ => "U16"
  | .I16 _ => "I16"
  | .U32 _ => "U32"
  | .I32 _ => "I32"
  | .F32 _ => "F32"
  | .F64 _ => "F64"
  | .String _ => "String"
  | .ArrayU16 _ => "ArrayU16"
  | .ArrayI16 _ => "ArrayI16"
  | .ArrayU32 _ => "ArrayU32"
  | .ArrayI32 _ => "ArrayI32"
  | .ArrayF32 _ => "ArrayF32"
  | .ArrayF64 _ => "ArrayF64"
  | .ArrayString _ => "ArrayString"
  | .Array2DF32 _ => "Array2DF32"

/-- From `src/types.rs`: `NanonisValue::as_f32`. -/
def NanonisValue.as_f32 : NanonisValue → Except NanonisError Nat
  | .F32 v => .ok v
  | v => .error (.Type ("Expected f32, got " ++ tagName v))

/-- From `src/types.rs`: `NanonisValue::as_f64`. -/
def NanonisValue.as_f64 : NanonisValue → Except NanonisError Nat
  | .F64 v => .ok v
  | v => .error (.Type ("Expected f64, got " ++ tagName v))

/-- From `src/types.rs`: `NanonisValue::as_u16`. -/
def NanonisValue.as_u16 : NanonisValue → Except NanonisError Nat
  | .U16 v => .ok v
  | v => .error (.Type ("Expected u16, got " ++ tagName v))

/-- From `src/types.rs`: `NanonisValue::as_u32`. -/
def NanonisValue.as_u32 : NanonisValue → Except NanonisError Nat
  | .U32 v => .ok v
  | v => .error (.Type ("Expected u32, got " ++ tagName v))

/-- From `src/types.rs`: `NanonisValue::as_i16`. -/
def NanonisValue.as_i16 : NanonisValue → Except NanonisError Int
  | .I16 v => .ok v
  | v => .error (.Type ("Expected i16, got " ++ tagName v))

/-- From `src/types.rs`: `NanonisValue::as_i32`. -/
def NanonisValue.as_i32 : NanonisValue → Except NanonisError Int
  | .I32 v => .ok v
  | v => .error (.Type ("Expected i32, got " ++ tagName v))

/-- From `src/types.rs`: `NanonisValue::as_string`. -/
def NanonisValue.as_string : NanonisValue → Except NanonisError (List Nat)
  | .String s => .ok s
  | v => .error (.Type ("Expected string, got " ++ tagName v))

/-- From `src/types.rs`: `NanonisValue::as_string_array`. -/
def NanonisValue.as_string_array : NanonisValue → Except NanonisError (List (List Nat))
  | .ArrayString arr => .ok arr
  | v => .error (.Type ("Expected string array, got " ++ tagName v))

/-- From `src/types.rs`: `NanonisValue::as_f32_array`. -/
def NanonisValue.as_f32_array : NanonisValue → Except NanonisError (List Nat)
  | .ArrayF32 arr => .ok arr
  | v => .error (.Type ("Expected f32 array, got " ++ tagName v))

/-- From `src/types.rs`: `NanonisValue::as_f64_array`. -/
def NanonisValue.as_f64_array : NanonisValue → Except NanonisError (List Nat)
  | .ArrayF64 arr => .ok arr
  | v => .error (.Type ("Expected f64 array, got " ++ tagName v))

/-- From `src/types.rs`: `NanonisValue::as_i32_array`. -/
def NanonisValue.as_i32_array : NanonisValue → Except NanonisError (List Int)
  | .ArrayI32 arr => .ok arr
  | v => .error (.Type ("Expected i32 array, got " ++ tagName v))

/-- From `src/types.rs`: `NanonisValue::as_f32_2d_array`. -/
def NanonisValue.as_f32_2d_array : NanonisValue → Except NanonisError (List (List Nat))
  | .Array2DF32 arr => .ok arr
  | v => .error (.Type ("Expected 2D f32 array, got " ++ tagName v))

/-- From `src/types.rs`: `ChannelIndex`, a TCP channel index (0-23). -/
structure ChannelIndex where
  val : Nat
deriving DecidableEq, Repr

/-- From `src/types.rs`: `ChannelIndex::new`, which validates the range. -/
def ChannelIndex.new (index : Nat) : Except String ChannelIndex :=
  if index ≤ 23 then .ok ⟨index⟩
  else .error ("Channel index " ++ toString index ++ " out of range (0-23)")

/-- From `src/types.rs`: `impl From<u8> for ChannelIndex`, which falls back to
`ChannelIndex(23.min(index))` when `ChannelIndex::new` rejects the input
(after logging a warning, a side effect outside this value-level model). -/
def channelIndexFromU8 (index : Nat) : ChannelIndex :=
  match ChannelIndex.new index with
  | .ok c => c
  | .error _ => ⟨min 23 index⟩

/-- Is `b` a UTF-8 continuation byte (`0x80 ..= 0xBF`)? -/
def isCont (b : Nat) : Bool := 0x80 ≤ b && b ≤ 0xBF

/-- Well-formed UTF-8 byte sequence, per the Unicode table that Rust
`String::from_utf8` enforces (no overlong forms, no surrogates, scalar
values at most `0x10FFFF`). -/
def validUtf8 : List Nat → Bool
  | [] => true
  | b :: bs =>
    if b ≤ 0x7F then validUtf8 bs
    else if 0xC2 ≤ b && b ≤ 0xDF then
      match bs with
      | b1 :: bs1 => isCont b1 && validUtf8 bs1
      | [] => false
    else if b == 0xE0 then
      match bs with
      | b1 :: b2 :: bs1 => (0xA0 ≤ b1 && b1 ≤ 0xBF) && isCont b2 && validUtf8 bs1
      | _ => false
    else if (0xE1 ≤ b && b ≤ 0xEC) || b == 0xEE || b == 0xEF then
      match bs with
      | b1 :: b2 :: bs1 => isCont b1 && isCont b2 && validUtf8 bs1
      | _ => false
    else if b == 0xED then
      match bs with
      | b1 :: b2 :: bs1 => (0x80 ≤ b1 && b1 ≤ 0x9F) && isCont b2 && validUtf8 bs1
      | _ => false
    else if b == 0xF0 then
      match bs with
      | b1 :: b2 :: b3 :: bs1 =>
        (0x90 ≤ b1 && b1 ≤ 0xBF) && isCont b2 && isCont b3 && validUtf8 bs1
      | _ => false
    else if 0xF1 ≤ b && b ≤ 0xF3 then
      match bs with
      | b1 :: b2 :: b3 :: bs1 => isCont b1 && isCont b2 && isCont b3 && validUtf8 bs1
      | _ => false
    else if b == 0xF4 then
      match bs with
      | b1 :: b2 :: b3 :: bs1 =>
        (0x80 ≤ b1 && b1 ≤ 0x8F) && isCont b2 && isCont b3 && validUtf8 bs1
      | _ => false
    else false

/-- Modelled from the spec: the closed type-code vocabulary of the codec
(`protocol` module, not in this snapshot).  Spec sections 2 and 9: "a small
closed vocabulary of per-argument wire-shape descriptors", "one variant per
wire shape" — fixed-width scalars of each width and signedness, 32/64-bit
floats, a size-prefixed UTF-8 string, a size-prefixed homogeneous array of
each scalar shape, a size-prefixed string array, and the specialized
row/column-prefixed 2D float array. -/
inductive TypeCode where
  | u16 | i16 | u32 | i32 | f32 | f64
  | str
  | arrU16 | arrI16 | arrU32 | arrI32 | arrF32 | arrF64
  | arrStr
  | arr2DF32
deriving DecidableEq, Repr

/-- Modelled from the spec: the runtime string spelling of each type code as
used by the domain-wrapper call sites in `src/client` (for example
`util_version_get` passes `["+*c", "+*c", "I", "I"]`); the codec parses these
strings, unknown spellings being a protocol error. -/
def typeCodeOfString (s : String) : Option TypeCode :=
  if s = "H" then some .u16
  else if s = "h" then some .i16
  else if s = "I" then some .u32
  else if s = "i" then some .i32
  else if s = "f" then some .f32
  else if s = "d" then some .f64
  else if s = "+*c" then some .str
  else if s = "+*H" then some .arrU16
  else if s = "+*h" then some .arrI16
  else if s = "+*I" then some .arrU32
  else if s = "+*i" then some .arrI32
  else if s = "+*f" then some .arrF32
  else if s = "+*d" then some .arrF64
  else if s = "*+c" then some .arrStr
  else if s = "2f" then some .arr2DF32
  else none

/-- Parse one type-code string; an unknown spelling is a protocol error. -/
def parseTypeCode (s : String) : Except NanonisError TypeCode :=
  match typeCodeOfString s with
  | some c => .ok c
  | none => .error (.Protocol ("Unsupported type code: " ++ s))

/-- Parse a list of type-code strings left to right, failing on the first
unsupported spelling. -/
def parseTypeCodes : List String → Except NanonisError (List TypeCode)
  | [] => .ok []
  | s :: ss =>
    match parseTypeCode s with
    | .error e => .error e
    | .ok c =>
      match parseTypeCodes ss with
      | .error e => .error e
      | .ok cs => .ok (c :: cs)

/-- Interpret a `w * 8`-bit big-endian pattern as a two-complement signed
integer: `half = 2 ^ (w * 8 - 1)`, `full = 2 ^ (w * 8)`. -/
def sInt (half full m : Nat) : Int :=
  if m < half then (m : Int) else (m : Int) - (full : Int)

/-- Modelled from the spec (section 4.2 decode contract): read exactly `k`
body bytes, failing with a protocol "truncated response" error when the body
is exhausted first. -/
def readBytes (k : Nat) (bs : List Nat) : Except NanonisError (List Nat × List Nat) :=
  if k ≤ bs.length then .ok (bs.take k, bs.drop k)
  else .error (.Protocol "truncated response")

/-- Decode one fixed-width scalar field: `w` big-endian bytes converted by
`conv` (identity for unsigned and float bit patterns, two-complement
reinterpretation for signed integers). -/
def decScalar (w : Nat) (conv : Nat → α) (bs : List Nat) :
    Except NanonisError (α × List Nat) :=
  match readBytes w bs with
  | .error e => .error e
  | .ok (pre, rest) => .ok (conv (fromBE pre), rest)

/-- Read a 4-byte big-endian unsigned size prefix (spec section 6: string
lengths, array element counts and 2D row/column counts are 4-byte values). -/
def readU32 (bs : List Nat) : Except NanonisError (Nat × List Nat) :=
  decScalar 4 id bs

/-- Decode a size-prefixed UTF-8 string: 4-byte byte length, then that many
payload bytes, which must be valid UTF-8 (spec section 4.2 edge cases:
"strings are decoded as UTF-8 — invalid byte sequences are a decode
failure"). -/
def decodeString (bs : List Nat) : Except NanonisError (List Nat × List Nat) :=
  match readU32 bs with
  | .error e => .error e
  | .ok (n, bs1) =>
    match readBytes n bs1 with
    | .error e => .error e
    | .ok (sb, bs2) =>
      if validUtf8 sb then .ok (sb, bs2)
      else .error (.Protocol "invalid UTF-8 in string")

/-- Decode `n` consecutive fields with the element decoder `dec1`,
left to right. -/
def decN (dec1 : List Nat → Except NanonisError (α × List Nat)) :
    Nat → List Nat → Except NanonisError (List α × List Nat)
  | 0, bs => .ok ([], bs)
  | n + 1, bs =>
    match dec1 bs with
    | .error e => .error e
    | .ok (v, bs1) =>
      match decN dec1 n bs1 with
      | .error e => .error e
      | .ok (vs, bs2) => .ok (v :: vs, bs2)

/-- Split a flat row-major element list back into `r` rows of `c` columns. -/
def chunkRows (c : Nat) : Nat → List Nat → List (List Nat)
  | 0, _ => []
  | r + 1, xs => xs.take c :: chunkRows c r (xs.drop c)

/-- Modelled from the spec (section 4.2 decode contract, section 6 wire
format): decode one field according to its type code — fixed-width scalars
big-endian; strings and 1D arrays first consume their 4-byte size prefix;
the 2D float array consumes a 4-byte row count, a 4-byte column count, then
`rows * cols` row-major elements. -/
def decodeValue : TypeCode → List Nat → Except NanonisError (NanonisValue × List Nat)
  | .u16, bs => (decScalar 2 id bs).map fun p => (.U16 p.1, p.2)
  | .i16, bs => (decScalar 2 (sInt 32768 65536) bs).map fun p => (.I16 p.1, p.2)
  | .u32, bs => (decScalar 4 id bs).map fun p => (.U32 p.1, p.2)
  | .i32, bs => (decScalar 4 (sInt 2147483648 4294967296) bs).map fun p => (.I32 p.1, p.2)
  | .f32, bs => (decScalar 4 id bs).map fun p => (.F32 p.1, p.2)
  | .f64, bs => (decScalar 8 id bs).map fun p => (.F64 p.1, p.2)
  | .str, bs => (decodeString bs).map fun p => (.String p.1, p.2)
  | .arrU16, bs =>
    match readU32 bs with
    | .error e => .error e
    | .ok (n, bs1) => (decN (decScalar 2 id) n bs1).map fun p => (.ArrayU16 p.1, p.2)
  | .arrI16, bs =>
    match readU32 bs with
    | .error e => .error e
    | .ok (n, bs1) =>
      (decN (decScalar 2 (sInt 32768 65536)) n bs1).map fun p => (.ArrayI16 p.1, p.2)
  | .arrU32, bs =>
    match readU32 bs with
    | .error e => .error e
    | .ok (n, bs1) => (decN (decScalar 4 id) n bs1).map fun p => (.ArrayU32 p.1, p.2)
  | .arrI32, bs =>
    match readU32 bs with
    | .error e => .error e
    | .ok (n, bs1) =>
      (decN (decScalar 4 (sInt 2147483648 4294967296)) n bs1).map fun p =>
        (.ArrayI32 p.1, p.2)
  | .arrF32, bs =>
    match readU32 bs with
    | .error e => .error e
    | .ok (n, bs1) => (decN (decScalar 4 id) n bs1).map fun p => (.ArrayF32 p.1, p.2)
  | .arrF64, bs =>
    match readU32 bs with
    | .error e => .error e
    | .ok (n, bs1) => (decN (decScalar 8 id) n bs1).map fun p => (.ArrayF64 p.1, p.2)
  | .arrStr, bs =>
    match readU32 bs with
    | .error e => .error e
    | .ok (n, bs1) => (decN decodeString n bs1).map fun p => (.ArrayString p.1, p.2)
  | .arr2DF32, bs =>
    match readU32 bs with
    | .error e => .error e
    | .ok (r, bs1) =>
      match readU32 bs1 with
      | .error e => .error e
      | .ok (c, bs2) =>
        (decN (decScalar 4 id) (r * c) bs2).map fun p =>
          (.Array2DF32 (chunkRows c r p.1), p.2)

/-- Does a value tag match a type code?  Exactly one code matches each tag
(spec section 3: "a value's declared type-code must match the value's actual
tag on encode"). -/
def codeMatches : TypeCode → NanonisValue → Bool
  | .u16, .U16 _ => true
  | .i16, .I16 _ => true
  | .u32, .U32 _ => true
  | .i32, .I32 _ => true
  | .f32, .F32 _ => true
  | .f64, .F64 _ => true
  | .str, .String _ => true
  | .arrU16, .ArrayU16 _ => true
  | .arrI16, .ArrayI16 _ => true
  | .arrU32, .ArrayU32 _ => true
  | .arrI32, .ArrayI32 _ => true
  | .arrF32, .ArrayF32 _ => true
  | .arrF64, .ArrayF64 _ => true
  | .arrStr, .ArrayString _ => true
  | .arr2DF32, .Array2DF32 _ => true
  | _, _ => false

/-- The column count of a 2D array value: the length of the first row
(zero when there are no rows). -/
def numCols (rows : List (List Nat)) : Nat := ((rows.headD [])).length

/-- The encoded byte length of one string field: 4-byte size prefix plus
payload. -/
def encString (s : List Nat) : List Nat := beBytes 4 s.length ++ s

/-- Modelled from the spec (section 4.2 encode contract, section 6 wire
format): the byte encoding of one value — fixed-width scalars as big-endian
bytes (signed integers in two-complement), strings and 1D arrays with their
4-byte size prefix first, the 2D float array as row count, column count,
then the flattened row-major payload. -/
def encodeValue : NanonisValue → List Nat
  | .U16 n => beBytes 2 n
  | .I16 x => beBytes 2 (x % 65536).toNat
  | .U32 n => beBytes 4 n
  | .I32 x => beBytes 4 (x % 4294967296).toNat
  | .F32 b => beBytes 4 b
  | .F64 b => beBytes 8 b
  | .String s => encString s
  | .ArrayU16 vs => beBytes 4 vs.length ++ (vs.map (beBytes 2)).flatten
  | .ArrayI16 vs => beBytes 4 vs.length ++ (vs.map (fun x => beBytes 2 (x % 65536).toNat)).flatten
  | .ArrayU32 vs => beBytes 4 vs.length ++ (vs.map (beBytes 4)).flatten
  | .ArrayI32 vs =>
    beBytes 4 vs.length ++ (vs.map (fun x => beBytes 4 (x % 4294967296).toNat)).flatten
  | .ArrayF32 vs => beBytes 4 vs.length ++ (vs.map (beBytes 4)).flatten
  | .ArrayF64 vs => beBytes 4 vs.length ++ (vs.map (beBytes 8)).flatten
  | .ArrayString ss => beBytes 4 ss.length ++ (ss.map encString).flatten
  | .Array2DF32 rows =>
    beBytes 4 rows.length ++ beBytes 4 (numCols rows) ++ (rows.flatten.map (beBytes 4)).flatten

/-- Well-formedness of a value: every numeric payload is in the range of its
Rust machine type, strings are valid UTF-8 (the Rust `String` invariant),
sizes fit the 4-byte prefixes, and a 2D array is rectangular (spec section 8:
an R×C matrix). -/
def wfValue : NanonisValue → Bool
  | .U16 n => n < 65536
  | .I16 x => -32768 ≤ x && x < 32768
  | .U32 n => n < 4294967296
  | .I32 x => -2147483648 ≤ x && x < 2147483648
  | .F32 b => b < 4294967296
  | .F64 b => b < 18446744073709551616
  | .String s => s.length < 4294967296 && validUtf8 s
  | .ArrayU16 vs => vs.length < 4294967296 && vs.all (· < 65536)
  | .ArrayI16 vs => vs.length < 4294967296 && vs.all (fun x => -32768 ≤ x && x < 32768)
  | .ArrayU32 vs => vs.length < 4294967296 && vs.all (· < 4294967296)
  | .ArrayI32 vs =>
    vs.length < 4294967296 && vs.all (fun x => -2147483648 ≤ x && x < 2147483648)
  | .ArrayF32 vs => vs.length < 4294967296 && vs.all (· < 4294967296)
  | .ArrayF64 vs => vs.length < 4294967296 && vs.all (· < 18446744073709551616)
  | .ArrayString ss =>
    ss.length < 4294967296 && ss.all (fun s => s.length < 4294967296 && validUtf8 s)
  | .Array2DF32 rows =>
    rows.length < 4294967296 && numCols rows < 4294967296 &&
      rows.all (fun row => row.length = numCols rows && row.all (· < 4294967296))

/-- Modelled from the spec (section 4.2 encode contract): encode an ordered
(value, code) list into a contiguous byte body, checking each pair for a
value/code tag mismatch, which "fails immediately ..., before any bytes are
emitted" — the result is an error carrying no partial body. -/
def encodeBody : List (NanonisValue × TypeCode) → Except NanonisError (List Nat)
  | [] => .ok []
  | (v, c) :: rest =>
    if codeMatches c v then
      match encodeBody rest with
      | .error e => .error e
      | .ok b => .ok (encodeValue v ++ b)
    else .error (.Protocol ("Type code does not match value tag " ++ tagName v))

/-- Decode fields left to right per the ordered list of expected result
codes, returning the values and the unconsumed remainder of the body. -/
def decodeValues : List TypeCode → List Nat → Except NanonisError (List NanonisValue × List Nat)
  | [], bs => .ok ([], bs)
  | c :: cs, bs =>
    match decodeValue c bs with
    | .error e => .error e
    | .ok (v, bs1) =>
      match decodeValues cs bs1 with
      | .error e => .error e
      | .ok (vs, bs2) => .ok (v :: vs, bs2)

/-- Modelled from the spec (section 4.2 decode contract): decode a full
response body; bytes remaining after all result codes are satisfied are a
protocol error ("trailing bytes"). -/
def decodeBody (cs : List TypeCode) (bs : List Nat) :
    Except NanonisError (List NanonisValue) :=
  match decodeValues cs bs with
  | .error e => .error e
  | .ok (vs, rest) =>
    if rest.isEmpty then .ok vs
    else .error (.Protocol "trailing bytes after all result codes")

/-- Modelled from the spec (sections 4.3 and 5): how the single blocking
request/response exchange of one transaction went on the wire — a socket
failure, a deadline expiry, or a reply carrying the remote status/message
pair and the response body.  This abstracts the TCP socket of the missing
`client` module. -/
inductive WireOutcome where
  | ioFail (context : String)
  | timeoutFail (what : String)
  | reply (status : Int) (message : String) (body : List Nat)

/-- Modelled from the spec (section 4.3 transaction engine): execute one
command round-trip.  The argument list must pair up with the argument codes;
the body is encoded before anything is written; transport failures surface
as Io / Timeout errors; with an empty result-code list no response is
awaited; a nonzero remote status becomes a Server error without any result
decoding; otherwise the body is decoded against the expected result codes.
Header serialization (fixed command-name field, body length, response flag)
is abstracted away, being untested by any claim. -/
def transact (commandName : String) (args : List NanonisValue)
    (argCodes resultCodes : List String) (wire : WireOutcome) :
    Except NanonisError (List NanonisValue) :=
  if args.length ≠ argCodes.length then
    .error (.Protocol ("Argument count mismatch for " ++ commandName))
  else
    match parseTypeCodes argCodes with
    | .error e => .error e
    | .ok acs =>
      match encodeBody (args.zip acs) with
      | .error e => .error e
      | .ok _body =>
        match wire with
        | .ioFail ctx => .error (.Io ctx)
        | .timeoutFail w => .error (.Timeout w)
        | .reply status message body =>
          if resultCodes.isEmpty then .ok []
          else if status ≠ 0 then .error (.Server status message)
          else
            match parseTypeCodes resultCodes with
            | .error e => .error e
            | .ok rcs => decodeBody rcs body

/-- ASCII bytes of a string literal, for concrete wire examples. -/
def asciiBytes (s : String) : List Nat := s.data.map Char.toNat

-- ==================== Byte-level lemmas ====================

theorem beBytes_length (w n : Nat) : (beBytes w n).length = w := by
  induction w generalizing n with
  | zero => rfl
  | succ w ih => simp [beBytes, ih]

theorem fromBE_append_single (xs : List Nat) (b : Nat) :
    fromBE (xs ++ [b]) = fromBE xs * 256 + b := by
  simp [fromBE, List.foldl_append]

theorem fromBE_beBytes (w n : Nat) (h : n < 256 ^ w) : fromBE (beBytes w n) = n := by
  induction w generalizing n with
  | zero =>
    have : n = 0 := by simpa using h
    simp [this, beBytes, fromBE]
  | succ w ih =>
    have h1 : n / 256 < 256 ^ w := by
      rw [Nat.div_lt_iff_lt_mul (by norm_num)]
      calc n < 256 ^ (w + 1) := h
        _ = 256 ^ w * 256 := by ring
    rw [beBytes, fromBE_append_single, ih _ h1]
    omega

theorem readBytes_exact (xs rest : List Nat) :
    readBytes xs.length (xs ++ rest) = .ok (xs, rest) := by
  unfold readBytes
  rw [if_pos (by simp)]
  rw [List.take_left, List.drop_left]

theorem readBytes_short (k : Nat) (bs : List Nat) (h : bs.length < k) :
    readBytes k bs = .error (.Protocol "truncated response") := by
  unfold readBytes
  rw [if_neg (by omega)]

theorem decScalar_exact (w : Nat) (conv : Nat → α) (xs rest : List Nat)
    (h : xs.length = w) :
    decScalar w conv (xs ++ rest) = .ok (conv (fromBE xs), rest) := by
  subst h
  unfold decScalar
  rw [readBytes_exact]

theorem decScalar_beBytes (w n : Nat) (conv : Nat → α) (rest : List Nat)
    (h : n < 256 ^ w) :
    decScalar w conv (beBytes w n ++ rest) = .ok (conv n, rest) := by
  rw [decScalar_exact w conv _ rest (beBytes_length w n), fromBE_beBytes w n h]

theorem decScalar_short (w : Nat) (conv : Nat → α) (bs : List Nat)
    (h : bs.length < w) :
    decScalar w conv bs = .error (.Protocol "truncated response") := by
  unfold decScalar
  rw [readBytes_short w bs h]

theorem decScalar_ok_len (w : Nat) (conv : Nat → α) (bs : List Nat)
    (h : w ≤ bs.length) :
    decScalar w conv bs = .ok (conv (fromBE (bs.take w)), bs.drop w) := by
  unfold decScalar readBytes
  rw [if_pos h]

-- ==================== Element-sequence lemmas ====================

theorem decN_exact (dec1 : List Nat → Except NanonisError (α × List Nat))
    (enc1 : α → List Nat) (xs : List α) (rest : List Nat)
    (h : ∀ x ∈ xs, ∀ r, dec1 (enc1 x ++ r) = .ok (x, r)) :
    decN dec1 xs.length ((xs.map enc1).flatten ++ rest) = .ok (xs, rest) := by
  induction xs with
  | nil => simp [decN]
  | cons x xs ih =>
    show decN dec1 (xs.length + 1) _ = _
    unfold decN
    rw [List.map_cons, List.flatten_cons, List.append_assoc, h x (by simp)]
    show (match decN dec1 xs.length ((xs.map enc1).flatten ++ rest) with
      | Except.error e => Except.error e
      | Except.ok (vs, bs2) => Except.ok (x :: vs, bs2)) = _
    rw [ih (fun y hy r => h y (List.mem_cons_of_mem x hy) r)]

theorem decN_scalar_short (w : Nat) (conv : Nat → α) (n : Nat) (bs : List Nat)
    (h : bs.length < n * w) :
    decN (decScalar w conv) n bs = .error (.Protocol "truncated response") := by
  induction n generalizing bs with
  | zero => omega
  | succ n ih =>
    rw [Nat.succ_mul] at h
    unfold decN
    by_cases hlen : bs.length < w
    · rw [decScalar_short w conv bs hlen]
    · rw [decScalar_ok_len w conv bs (by omega)]
      show (match decN (decScalar w conv) n (bs.drop w) with
        | Except.error e => Except.error e
        | Except.ok (vs, bs2) => Except.ok (conv (fromBE (bs.take w)) :: vs, bs2)) = _
      rw [ih (bs.drop w) (by simp; omega)]

theorem decN_trunc (dec1 : List Nat → Except NanonisError (α × List Nat))
    (enc1 : α → List Nat) (xs : List α)
    (hloc : ∀ x ∈ xs, ∀ r, dec1 (enc1 x ++ r) = .ok (x, r))
    (htr : ∀ x ∈ xs, ∀ j, j < (enc1 x).length → ∃ e, dec1 ((enc1 x).take j) = .error e)
    (j : Nat) (hj : j < ((xs.map enc1).flatten).length) :
    ∃ e, decN dec1 xs.length (((xs.map enc1).flatten).take j) = .error e := by
  induction xs generalizing j with
  | nil => simp at hj
  | cons x xs ih =>
    rw [List.map_cons, List.flatten_cons] at hj ⊢
    by_cases hcase : j < (enc1 x).length
    · obtain ⟨e, he⟩ := htr x (by simp) j hcase
      refine ⟨e, ?_⟩
      show decN dec1 (xs.length + 1) _ = _
      unfold decN
      rw [List.take_append_eq_append_take, Nat.sub_eq_zero_of_le (le_of_lt hcase),
        List.take_zero, List.append_nil, he]
    · have hx : ((enc1 x ++ (xs.map enc1).flatten).take j)
          = enc1 x ++ ((xs.map enc1).flatten).take (j - (enc1 x).length) := by
        rw [List.take_append_eq_append_take, List.take_of_length_le (by omega)]
      have hj2 : j - (enc1 x).length < ((xs.map enc1).flatten).length := by
        simp only [List.length_append] at hj
        omega
      obtain ⟨e, he⟩ := ih (fun y hy r => hloc y (List.mem_cons_of_mem x hy) r)
        (fun y hy => htr y (List.mem_cons_of_mem x hy)) (j - (enc1 x).length) hj2
      refine ⟨e, ?_⟩
      show decN dec1 (xs.length + 1) _ = _
      unfold decN
      rw [hx, hloc x (by simp)]
      show (match decN dec1 xs.length (((xs.map enc1).flatten).take (j - (enc1 x).length)) with
        | Except.error e => Except.error e
        | Except.ok (vs, bs2) => Except.ok (x :: vs, bs2)) = _
      rw [he]

-- ==================== String lemmas ====================

theorem encString_length (s : List Nat) : (encString s).length = 4 + s.length := by
  simp [encString, beBytes_length]

theorem decodeString_enc (s rest : List Nat) (hlen : s.length < 4294967296)
    (hval : validUtf8 s = true) :
    decodeString (encString s ++ rest) = .ok (s, rest) := by
  unfold decodeString encString readU32
  rw [List.append_assoc, decScalar_beBytes 4 s.length id (s ++ rest) (by norm_num; omega)]
  show (match readBytes s.length (s ++ rest) with
    | Except.error e => Except.error e
    | Except.ok (sb, bs2) => if validUtf8 sb then Except.ok (sb, bs2)
      else Except.error (NanonisError.Protocol "invalid UTF-8 in string")) = _
  rw [readBytes_exact]
  simp [hval]

theorem decodeString_trunc (s : List Nat) (hlen : s.length < 4294967296) (j : Nat)
    (hj : j < (encString s).length) :
    ∃ e, decodeString ((encString s).take j) = .error e := by
  rw [encString_length] at hj
  refine ⟨.Protocol "truncated response", ?_⟩
  by_cases h4 : j < 4
  · unfold decodeString readU32
    rw [decScalar_short 4 id _ (by simp [encString_length]; omega)]
  · unfold decodeString encString readU32
    rw [List.take_append_eq_append_take, List.take_of_length_le (by rw [beBytes_length]; omega),
      beBytes_length]
    rw [decScalar_exact 4 id _ _ (beBytes_length 4 s.length),
      fromBE_beBytes 4 s.length (by norm_num; omega)]
    show (match readBytes s.length (s.take (j - 4)) with
      | Except.error e => Except.error e
      | Except.ok (sb, bs2) => if validUtf8 sb then Except.ok (sb, bs2)
        else Except.error (NanonisError.Protocol "invalid UTF-8 in string")) = _
    rw [readBytes_short s.length _ (by simp [List.length_take]; omega)]

-- ==================== Value-level roundtrip lemmas ====================

theorem readU32_beBytes (n : Nat) (rest : List Nat) (h : n < 4294967296) :
    readU32 (beBytes 4 n ++ rest) = .ok (n, rest) := by
  unfold readU32
  exact decScalar_beBytes 4 n id rest (by norm_num; omega)

theorem sInt16_emod (x : Int) (h1 : -32768 ≤ x) (h2 : x < 32768) :
    sInt 32768 65536 ((x % 65536).toNat) = x := by
  unfold sInt
  split <;> omega

theorem sInt32_emod (x : Int) (h1 : -2147483648 ≤ x) (h2 : x < 2147483648) :
    sInt 2147483648 4294967296 ((x % 4294967296).toNat) = x := by
  unfold sInt
  split <;> omega

theorem emod16_toNat_lt (x : Int) : (x % 65536).toNat < 65536 := by omega

theorem emod32_toNat_lt (x : Int) : (x % 4294967296).toNat < 4294967296 := by omega

theorem flatten_length_const (rows : List (List Nat)) (c : Nat)
    (h : ∀ row ∈ rows, row.length = c) :
    rows.flatten.length = rows.length * c := by
  induction rows with
  | nil => simp
  | cons row rows ih =>
    simp only [List.flatten_cons, List.length_append, List.length_cons]
    rw [h row (by simp), ih (fun r hr => h r (List.mem_cons_of_mem row hr))]
    ring

theorem chunkRows_flatten (rows : List (List Nat)) (c : Nat)
    (h : ∀ row ∈ rows, row.length = c) :
    chunkRows c rows.length rows.flatten = rows := by
  induction rows with
  | nil => rfl
  | cons row rows ih =>
    show chunkRows c (rows.length + 1) (row ++ rows.flatten) = row :: rows
    have hc : row.length = c := h row (by simp)
    have t1 : (row ++ rows.flatten).take c = row := by
      rw [← hc]; exact List.take_left row rows.flatten
    have t2 : (row ++ rows.flatten).drop c = rows.flatten := by
      rw [← hc]; exact List.drop_left row rows.flatten
    unfold chunkRows
    rw [t1, t2, ih (fun r hr => h r (List.mem_cons_of_mem row hr))]

/-- Decoding is left inverse to encoding locally: on a byte stream that
starts with the encoding of a matching, well-formed value, `decodeValue`
consumes exactly that encoding and returns exactly that value. -/
theorem decode_encodeValue (c : TypeCode) (v : NanonisValue) (hm : codeMatches c v = true)
    (hw : wfValue v = true) (rest : List Nat) :
    decodeValue c (encodeValue v ++ rest) = .ok (v, rest) := by
  cases c <;> cases v <;> simp only [codeMatches, Bool.false_eq_true] at hm
  case u16.U16 n =>
    simp only [wfValue, decide_eq_true_eq] at hw
    simp only [encodeValue, decodeValue,
      decScalar_beBytes 2 n id rest (by norm_num; omega)]
    rfl
  case i16.I16 x =>
    simp only [wfValue, Bool.and_eq_true, decide_eq_true_eq] at hw
    simp only [encodeValue, decodeValue,
      decScalar_beBytes 2 ((x % 65536).toNat) (sInt 32768 65536) rest
        (by norm_num; exact emod16_toNat_lt x)]
    rw [sInt16_emod x hw.1 hw.2]
    rfl
  case u32.U32 n =>
    simp only [wfValue, decide_eq_true_eq] at hw
    simp only [encodeValue, decodeValue,
      decScalar_beBytes 4 n id rest (by norm_num; omega)]
    rfl
  case i32.I32 x =>
    simp only [wfValue, Bool.and_eq_true, decide_eq_true_eq] at hw
    simp only [encodeValue, decodeValue,
      decScalar_beBytes 4 ((x % 4294967296).toNat) (sInt 2147483648 4294967296) rest
        (by norm_num; exact emod32_toNat_lt x)]
    rw [sInt32_emod x hw.1 hw.2]
    rfl
  case f32.F32 b =>
    simp only [wfValue, decide_eq_true_eq] at hw
    simp only [encodeValue, decodeValue,
      decScalar_beBytes 4 b id rest (by norm_num; omega)]
    rfl
  case f64.F64 b =>
    simp only [wfValue, decide_eq_true_eq] at hw
    simp only [encodeValue, decodeValue,
      decScalar_beBytes 8 b id rest (by norm_num; omega)]
    rfl
  case str.String s =>
    simp only [wfValue, Bool.and_eq_true, decide_eq_true_eq] at hw
    simp only [encodeValue, decodeValue, decodeString_enc s rest hw.1 hw.2]
    rfl
  case arrU16.ArrayU16 vs =>
    simp only [wfValue, Bool.and_eq_true, decide_eq_true_eq, List.all_eq_true,
      decide_eq_true_eq] at hw
    have h1 : readU32 (encodeValue (.ArrayU16 vs) ++ rest)
        = .ok (vs.length, (vs.map (beBytes 2)).flatten ++ rest) := by
      simp only [encodeValue, List.append_assoc]
      exact readU32_beBytes vs.length _ (by omega)
    simp only [decodeValue, h1]
    rw [decN_exact (decScalar 2 id) (beBytes 2) vs rest
      (fun x hx r => by rw [decScalar_beBytes 2 x id r (by norm_num; exact hw.2 x hx)]; rfl)]
    rfl
  case arrI16.ArrayI16 vs =>
    simp only [wfValue, Bool.and_eq_true, decide_eq_true_eq, List.all_eq_true,
      decide_eq_true_eq, Bool.and_eq_true] at hw
    have h1 : readU32 (encodeValue (.ArrayI16 vs) ++ rest)
        = .ok (vs.length, (vs.map (fun x => beBytes 2 (x % 65536).toNat)).flatten ++ rest) := by
      simp only [encodeValue, List.append_assoc]
      exact readU32_beBytes vs.length _ (by omega)
    simp only [decodeValue, h1]
    rw [decN_exact (decScalar 2 (sInt 32768 65536)) (fun x => beBytes 2 (x % 65536).toNat)
      vs rest (fun x hx r => by
        rw [decScalar_beBytes 2 ((x % 65536).toNat) (sInt 32768 65536) r
          (by norm_num; exact emod16_toNat_lt x)]
        rw [sInt16_emod x (hw.2 x hx).1 (hw.2 x hx).2])]
    rfl
  case arrU32.ArrayU32 vs =>
    simp only [wfValue, Bool.and_eq_true, decide_eq_true_eq, List.all_eq_true,
      decide_eq_true_eq] at hw
    have h1 : readU32 (encodeValue (.ArrayU32 vs) ++ rest)
        = .ok (vs.length, (vs.map (beBytes 4)).flatten ++ rest) := by
      simp only [encodeValue, List.append_assoc]
      exact readU32_beBytes vs.length _ (by omega)
    simp only [decodeValue, h1]
    rw [decN_exact (decScalar 4 id) (beBytes 4) vs rest
      (fun x hx r => by rw [decScalar_beBytes 4 x id r (by norm_num; exact hw.2 x hx)]; rfl)]
    rfl
  case arrI32.ArrayI32 vs =>
    simp only [wfValue, Bool.and_eq_true, decide_eq_true_eq, List.all_eq_true,
      decide_eq_true_eq, Bool.and_eq_true] at hw
    have h1 : readU32 (encodeValue (.ArrayI32 vs) ++ rest)
        = .ok (vs.length,
            (vs.map (fun x => beBytes 4 (x % 4294967296).toNat)).flatten ++ rest) := by
      simp only [encodeValue, List.append_assoc]
      exact readU32_beBytes vs.length _ (by omega)
    simp only [decodeValue, h1]
    rw [decN_exact (decScalar 4 (sInt 2147483648 4294967296))
      (fun x => beBytes 4 (x % 4294967296).toNat) vs rest (fun x hx r => by
        rw [decScalar_beBytes 4 ((x % 4294967296).toNat) (sInt 2147483648 4294967296) r
          (by norm_num; exact emod32_toNat_lt x)]
        rw [sInt32_emod x (hw.2 x hx).1 (hw.2 x hx).2])]
    rfl
  case arrF32.ArrayF32 vs =>
    simp only [wfValue, Bool.and_eq_true, decide_eq_true_eq, List.all_eq_true,
      decide_eq_true_eq] at hw
    have h1 : readU32 (encodeValue (.ArrayF32 vs) ++ rest)
        = .ok (vs.length, (vs.map (beBytes 4)).flatten ++ rest) := by
      simp only [encodeValue, List.append_assoc]
      exact readU32_beBytes vs.length _ (by omega)
    simp only [decodeValue, h1]
    rw [decN_exact (decScalar 4 id) (beBytes 4) vs rest
      (fun x hx r => by rw [decScalar_beBytes 4 x id r (by norm_num; exact hw.2 x hx)]; rfl)]
    rfl
  case arrF64.ArrayF64 vs =>
    simp only [wfValue, Bool.and_eq_true, decide_eq_true_eq, List.all_eq_true,
      decide_eq_true_eq] at hw
    have h1 : readU32 (encodeValue (.ArrayF64 vs) ++ rest)
        = .ok (vs.length, (vs.map (beBytes 8)).flatten ++ rest) := by
      simp only [encodeValue, List.append_assoc]
      exact readU32_beBytes vs.length _ (by omega)
    simp only [decodeValue, h1]
    rw [decN_exact (decScalar 8 id) (beBytes 8) vs rest
      (fun x hx r => by rw [decScalar_beBytes 8 x id r (by norm_num; exact hw.2 x hx)]; rfl)]
    rfl
  case arrStr.ArrayString ss =>
    simp only [wfValue, Bool.and_eq_true, decide_eq_true_eq, List.all_eq_true,
      decide_eq_true_eq, Bool.and_eq_true] at hw
    have h1 : readU32 (encodeValue (.ArrayString ss) ++ rest)
        = .ok (ss.length, (ss.map encString).flatten ++ rest) := by
      simp only [encodeValue, List.append_assoc]
      exact readU32_beBytes ss.length _ (by omega)
    simp only [decodeValue, h1]
    rw [decN_exact decodeString encString ss rest
      (fun s hs r => decodeString_enc s r (hw.2 s hs).1 (hw.2 s hs).2)]
    rfl
  case arr2DF32.Array2DF32 rows =>
    simp only [wfValue, Bool.and_eq_true, decide_eq_true_eq, List.all_eq_true,
      decide_eq_true_eq, Bool.and_eq_true] at hw
    obtain ⟨⟨hr, hc⟩, hrows⟩ := hw
    have hlen : ∀ row ∈ rows, row.length = numCols rows := fun row h => (hrows row h).1
    have hflat : rows.flatten.length = rows.length * numCols rows :=
      flatten_length_const rows (numCols rows) hlen
    have h1 : readU32 (encodeValue (.Array2DF32 rows) ++ rest)
        = .ok (rows.length,
            beBytes 4 (numCols rows) ++ ((rows.flatten.map (beBytes 4)).flatten ++ rest)) := by
      simp only [encodeValue, List.append_assoc]
      exact readU32_beBytes rows.length _ (by omega)
    have h2 : readU32 (beBytes 4 (numCols rows) ++ ((rows.flatten.map (beBytes 4)).flatten ++ rest))
        = .ok (numCols rows, (rows.flatten.map (beBytes 4)).flatten ++ rest) :=
      readU32_beBytes (numCols rows) _ (by omega)
    simp only [decodeValue, h1, h2]
    rw [show rows.length * numCols rows = rows.flatten.length from hflat.symm]
    rw [decN_exact (decScalar 4 id) (beBytes 4) rows.flatten rest
      (fun x hx r => by
        obtain ⟨row, hrow, hxrow⟩ := List.mem_flatten.mp hx
        rw [decScalar_beBytes 4 x id r (by norm_num; exact (hrows row hrow).2 x hxrow)]
        rfl)]
    simp only [Except.map]
    rw [chunkRows_flatten rows (numCols rows) hlen]

-- ==================== Truncation lemmas ====================

theorem take_append_left_of_le (xs ys : List Nat) (j : Nat) (h : j ≤ xs.length) :
    (xs ++ ys).take j = xs.take j := by
  rw [List.take_append_eq_append_take, Nat.sub_eq_zero_of_le h, List.take_zero,
    List.append_nil]

theorem take_append_right_of_le (xs ys : List Nat) (j : Nat) (h : xs.length ≤ j) :
    (xs ++ ys).take j = xs ++ ys.take (j - xs.length) := by
  rw [List.take_append_eq_append_take, List.take_of_length_le h]

theorem flatten_map_length (enc1 : α → List Nat) (w : Nat)
    (hw1 : ∀ x, (enc1 x).length = w) (vs : List α) :
    ((vs.map enc1).flatten).length = vs.length * w := by
  induction vs with
  | nil => simp
  | cons x vs ih =>
    simp only [List.map_cons, List.flatten_cons, List.length_append, List.length_cons,
      hw1, ih, Nat.succ_mul]
    omega

theorem readU32_short (bs : List Nat) (h : bs.length < 4) :
    readU32 bs = .error (.Protocol "truncated response") := by
  unfold readU32
  exact decScalar_short 4 id bs h

/-- Decoding fails on every proper prefix of the encoding of a matching,
well-formed value: the truncated-response condition of the decode contract. -/
theorem decodeValue_trunc (c : TypeCode) (v : NanonisValue) (hm : codeMatches c v = true)
    (hw : wfValue v = true) (j : Nat) (hj : j < (encodeValue v).length) :
    ∃ e, decodeValue c ((encodeValue v).take j) = .error e := by
  cases c <;> cases v <;> simp only [codeMatches, Bool.false_eq_true] at hm
  case u16.U16 n =>
    simp only [encodeValue, beBytes_length] at hj
    refine ⟨.Protocol "truncated response", ?_⟩
    simp only [encodeValue, decodeValue,
      decScalar_short 2 id ((beBytes 2 n).take j)
        (by simp only [List.length_take, beBytes_length]; omega)]
    rfl
  case i16.I16 x =>
    simp only [encodeValue, beBytes_length] at hj
    refine ⟨.Protocol "truncated response", ?_⟩
    simp only [encodeValue, decodeValue,
      decScalar_short 2 (sInt 32768 65536) ((beBytes 2 (x % 65536).toNat).take j)
        (by simp only [List.length_take, beBytes_length]; omega)]
    rfl
  case u32.U32 n =>
    simp only [encodeValue, beBytes_length] at hj
    refine ⟨.Protocol "truncated response", ?_⟩
    simp only [encodeValue, decodeValue,
      decScalar_short 4 id ((beBytes 4 n).take j)
        (by simp only [List.length_take, beBytes_length]; omega)]
    rfl
  case i32.I32 x =>
    simp only [encodeValue, beBytes_length] at hj
    refine ⟨.Protocol "truncated response", ?_⟩
    simp only [encodeValue, decodeValue,
      decScalar_short 4 (sInt 2147483648 4294967296) ((beBytes 4 (x % 4294967296).toNat).take j)
        (by simp only [List.length_take, beBytes_length]; omega)]
    rfl
  case f32.F32 b =>
    simp only [encodeValue, beBytes_length] at hj
    refine ⟨.Protocol "truncated response", ?_⟩
    simp only [encodeValue, decodeValue,
      decScalar_short 4 id ((beBytes 4 b).take j)
        (by simp only [List.length_take, beBytes_length]; omega)]
    rfl
  case f64.F64 b =>
    simp only [encodeValue, beBytes_length] at hj
    refine ⟨.Protocol "truncated response", ?_⟩
    simp only [encodeValue, decodeValue,
      decScalar_short 8 id ((beBytes 8 b).take j)
        (by simp only [List.length_take, beBytes_length]; omega)]
    rfl
  case str.String s =>
    simp only [wfValue, Bool.and_eq_true, decide_eq_true_eq] at hw
    obtain ⟨e, he⟩ := decodeString_trunc s hw.1 j (by simpa [encodeValue] using hj)
    refine ⟨e, ?_⟩
    simp only [encodeValue, decodeValue, he]
    rfl
  case arrU16.ArrayU16 vs =>
    simp only [wfValue, Bool.and_eq_true, decide_eq_true_eq, List.all_eq_true,
      decide_eq_true_eq] at hw
    obtain ⟨hw1, hw2⟩ := hw
    have hL : ((vs.map (beBytes 2)).flatten).length = vs.length * 2 :=
      flatten_map_length (beBytes 2) 2 (fun x => beBytes_length 2 x) vs
    have hj2 : j < 4 + vs.length * 2 := by
      simpa [encodeValue, List.length_append, beBytes_length, hL] using hj
    by_cases h4 : j < 4
    · refine ⟨.Protocol "truncated response", ?_⟩
      have hread : readU32 ((beBytes 4 vs.length ++ (vs.map (beBytes 2)).flatten).take j)
          = .error (.Protocol "truncated response") :=
        readU32_short _
          (by simp only [List.length_take, List.length_append, beBytes_length]; omega)
      simp only [encodeValue, decodeValue, hread]
    · refine ⟨.Protocol "truncated response", ?_⟩
      have hX : (beBytes 4 vs.length ++ (vs.map (beBytes 2)).flatten).take j
          = beBytes 4 vs.length ++ ((vs.map (beBytes 2)).flatten).take (j - 4) := by
        rw [take_append_right_of_le _ _ j (by rw [beBytes_length]; omega), beBytes_length]
      have hr : readU32 ((beBytes 4 vs.length ++ (vs.map (beBytes 2)).flatten).take j)
          = .ok (vs.length, ((vs.map (beBytes 2)).flatten).take (j - 4)) := by
        rw [hX]
        exact readU32_beBytes vs.length _ (by omega)
      have hdec : decN (decScalar 2 id) vs.length (((vs.map (beBytes 2)).flatten).take (j - 4))
          = .error (.Protocol "truncated response") :=
        decN_scalar_short 2 id vs.length _ (by rw [List.length_take, hL]; omega)
      simp only [encodeValue, decodeValue, hr, hdec]
      rfl
  case arrI16.ArrayI16 vs =>
    simp only [wfValue, Bool.and_eq_true, decide_eq_true_eq, List.all_eq_true,
      decide_eq_true_eq, Bool.and_eq_true] at hw
    obtain ⟨hw1, hw2⟩ := hw
    have hL : ((vs.map (fun x => beBytes 2 (x % 65536).toNat)).flatten).length = vs.length * 2 :=
      flatten_map_length _ 2 (fun x => beBytes_length 2 _) vs
    have hj2 : j < 4 + vs.length * 2 := by
      simpa [encodeValue, List.length_append, beBytes_length, hL] using hj
    by_cases h4 : j < 4
    · refine ⟨.Protocol "truncated response", ?_⟩
      have hread : readU32
          ((beBytes 4 vs.length ++ (vs.map (fun x => beBytes 2 (x % 65536).toNat)).flatten).take j)
          = .error (.Protocol "truncated response") :=
        readU32_short _
          (by simp only [List.length_take, List.length_append, beBytes_length]; omega)
      simp only [encodeValue, decodeValue, hread]
    · refine ⟨.Protocol "truncated response", ?_⟩
      have hX : (beBytes 4 vs.length ++ (vs.map (fun x => beBytes 2 (x % 65536).toNat)).flatten).take j
          = beBytes 4 vs.length
            ++ ((vs.map (fun x => beBytes 2 (x % 65536).toNat)).flatten).take (j - 4) := by
        rw [take_append_right_of_le _ _ j (by rw [beBytes_length]; omega), beBytes_length]
      have hr : readU32
          ((beBytes 4 vs.length ++ (vs.map (fun x => beBytes 2 (x % 65536).toNat)).flatten).take j)
          = .ok (vs.length,
              ((vs.map (fun x => beBytes 2 (x % 65536).toNat)).flatten).take (j - 4)) := by
        rw [hX]
        exact readU32_beBytes vs.length _ (by omega)
      have hdec : decN (decScalar 2 (sInt 32768 65536)) vs.length
          (((vs.map (fun x => beBytes 2 (x % 65536).toNat)).flatten).take (j - 4))
          = .error (.Protocol "truncated response") :=
        decN_scalar_short 2 (sInt 32768 65536) vs.length _
          (by rw [List.length_take, hL]; omega)
      simp only [encodeValue, decodeValue, hr, hdec]
      rfl
  case arrU32.ArrayU32 vs =>
    simp only [wfValue, Bool.and_eq_true, decide_eq_true_eq, List.all_eq_true,
      decide_eq_true_eq] at hw
    obtain ⟨hw1, hw2⟩ := hw
    have hL : ((vs.map (beBytes 4)).flatten).length = vs.length * 4 :=
      flatten_map_length (beBytes 4) 4 (fun x => beBytes_length 4 x) vs
    have hj2 : j < 4 + vs.length * 4 := by
      simpa [encodeValue, List.length_append, beBytes_length, hL] using hj
    by_cases h4 : j < 4
    · refine ⟨.Protocol "truncated response", ?_⟩
      have hread : readU32 ((beBytes 4 vs.length ++ (vs.map (beBytes 4)).flatten).take j)
          = .error (.Protocol "truncated response") :=
        readU32_short _
          (by simp only [List.length_take, List.length_append, beBytes_length]; omega)
      simp only [encodeValue, decodeValue, hread]
    · refine ⟨.Protocol "truncated response", ?_⟩
      have hX : (beBytes 4 vs.length ++ (vs.map (beBytes 4)).flatten).take j
          = beBytes 4 vs.length ++ ((vs.map (beBytes 4)).flatten).take (j - 4) := by
        rw [take_append_right_of_le _ _ j (by rw [beBytes_length]; omega), beBytes_length]
      have hr : readU32 ((beBytes 4 vs.length ++ (vs.map (beBytes 4)).flatten).take j)
          = .ok (vs.length, ((vs.map (beBytes 4)).flatten).take (j - 4)) := by
        rw [hX]
        exact readU32_beBytes vs.length _ (by omega)
      have hdec : decN (decScalar 4 id) vs.length (((vs.map (beBytes 4)).flatten).take (j - 4))
          = .error (.Protocol "truncated response") :=
        decN_scalar_short 4 id vs.length _ (by rw [List.length_take, hL]; omega)
      simp only [encodeValue, decodeValue, hr, hdec]
      rfl
  case arrI32.ArrayI32 vs =>
    simp only [wfValue, Bool.and_eq_true, decide_eq_true_eq, List.all_eq_true,
      decide_eq_true_eq, Bool.and_eq_true] at hw
    obtain ⟨hw1, hw2⟩ := hw
    have hL : ((vs.map (fun x => beBytes 4 (x % 4294967296).toNat)).flatten).length
        = vs.length * 4 :=
      flatten_map_length _ 4 (fun x => beBytes_length 4 _) vs
    have hj2 : j < 4 + vs.length * 4 := by
      simpa [encodeValue, List.length_append, beBytes_length, hL] using hj
    by_cases h4 : j < 4
    · refine ⟨.Protocol "truncated response", ?_⟩
      have hread : readU32
          ((beBytes 4 vs.length
            ++ (vs.map (fun x => beBytes 4 (x % 4294967296).toNat)).flatten).take j)
          = .error (.Protocol "truncated response") :=
        readU32_short _
          (by simp only [List.length_take, List.length_append, beBytes_length]; omega)
      simp only [encodeValue, decodeValue, hread]
    · refine ⟨.Protocol "truncated response", ?_⟩
      have hX : (beBytes 4 vs.length
            ++ (vs.map (fun x => beBytes 4 (x % 4294967296).toNat)).flatten).take j
          = beBytes 4 vs.length
            ++ ((vs.map (fun x => beBytes 4 (x % 4294967296).toNat)).flatten).take (j - 4) := by
        rw [take_append_right_of_le _ _ j (by rw [beBytes_length]; omega), beBytes_length]
      have hr : readU32
          ((beBytes 4 vs.length
            ++ (vs.map (fun x => beBytes 4 (x % 4294967296).toNat)).flatten).take j)
          = .ok (vs.length,
              ((vs.map (fun x => beBytes 4 (x % 4294967296).toNat)).flatten).take (j - 4)) := by
        rw [hX]
        exact readU32_beBytes vs.length _ (by omega)
      have hdec : decN (decScalar 4 (sInt 2147483648 4294967296)) vs.length
          (((vs.map (fun x => beBytes 4 (x % 4294967296).toNat)).flatten).take (j - 4))
          = .error (.Protocol "truncated response") :=
        decN_scalar_short 4 (sInt 2147483648 4294967296) vs.length _
          (by rw [List.length_take, hL]; omega)
      simp only [encodeValue, decodeValue, hr, hdec]
      rfl
  case arrF32.ArrayF32 vs =>
    simp only [wfValue, Bool.and_eq_true, decide_eq_true_eq, List.all_eq_true,
      decide_eq_true_eq] at hw
    obtain ⟨hw1, hw2⟩ := hw
    have hL : ((vs.map (beBytes 4)).flatten).length = vs.length * 4 :=
      flatten_map_length (beBytes 4) 4 (fun x => beBytes_length 4 x) vs
    have hj2 : j < 4 + vs.length * 4 := by
      simpa [encodeValue, List.length_append, beBytes_length, hL] using hj
    by_cases h4 : j < 4
    · refine ⟨.Protocol "truncated response", ?_⟩
      have hread : readU32 ((beBytes 4 vs.length ++ (vs.map (beBytes 4)).flatten).take j)
          = .error (.Protocol "truncated response") :=
        readU32_short _
          (by simp only [List.length_take, List.length_append, beBytes_length]; omega)
      simp only [encodeValue, decodeValue, hread]
    · refine ⟨.Protocol "truncated response", ?_⟩
      have hX : (beBytes 4 vs.length ++ (vs.map (beBytes 4)).flatten).take j
          = beBytes 4 vs.length ++ ((vs.map (beBytes 4)).flatten).take (j - 4) := by
        rw [take_append_right_of_le _ _ j (by rw [beBytes_length]; omega), beBytes_length]
      have hr : readU32 ((beBytes 4 vs.length ++ (vs.map (beBytes 4)).flatten).take j)
          = .ok (vs.length, ((vs.map (beBytes 4)).flatten).take (j - 4)) := by
        rw [hX]
        exact readU32_beBytes vs.length _ (by omega)
      have hdec : decN (decScalar 4 id) vs.length (((vs.map (beBytes 4)).flatten).take (j - 4))
          = .error (.Protocol "truncated response") :=
        decN_scalar_short 4 id vs.length _ (by rw [List.length_take, hL]; omega)
      simp only [encodeValue, decodeValue, hr, hdec]
      rfl
  case arrF64.ArrayF64 vs =>
    simp only [wfValue, Bool.and_eq_true, decide_eq_true_eq, List.all_eq_true,
      decide_eq_true_eq] at hw
    obtain ⟨hw1, hw2⟩ := hw
    have hL : ((vs.map (beBytes 8)).flatten).length = vs.length * 8 :=
      flatten_map_length (beBytes 8) 8 (fun x => beBytes_length 8 x) vs
    have hj2 : j < 4 + vs.length * 8 := by
      simpa [encodeValue, List.length_append, beBytes_length, hL] using hj
    by_cases h4 : j < 4
    · refine ⟨.Protocol "truncated response", ?_⟩
      have hread : readU32 ((beBytes 4 vs.length ++ (vs.map (beBytes 8)).flatten).take j)
          = .error (.Protocol "truncated response") :=
        readU32_short _
          (by simp only [List.length_take, List.length_append, beBytes_length]; omega)
      simp only [encodeValue, decodeValue, hread]
    · refine ⟨.Protocol "truncated response", ?_⟩
      have hX : (beBytes 4 vs.length ++ (vs.map (beBytes 8)).flatten).take j
          = beBytes 4 vs.length ++ ((vs.map (beBytes 8)).flatten).take (j - 4) := by
        rw [take_append_right_of_le _ _ j (by rw [beBytes_length]; omega), beBytes_length]
      have hr : readU32 ((beBytes 4 vs.length ++ (vs.map (beBytes 8)).flatten).take j)
          = .ok (vs.length, ((vs.map (beBytes 8)).flatten).take (j - 4)) := by
        rw [hX]
        exact readU32_beBytes vs.length _ (by omega)
      have hdec : decN (decScalar 8 id) vs.length (((vs.map (beBytes 8)).flatten).take (j - 4))
          = .error (.Protocol "truncated response") :=
        decN_scalar_short 8 id vs.length _ (by rw [List.length_take, hL]; omega)
      simp only [encodeValue, decodeValue, hr, hdec]
      rfl
  case arrStr.ArrayString ss =>
    simp only [wfValue, Bool.and_eq_true, decide_eq_true_eq, List.all_eq_true,
      decide_eq_true_eq, Bool.and_eq_true] at hw
    obtain ⟨hw1, hw2⟩ := hw
    have hj2 : j < 4 + ((ss.map encString).flatten).length := by
      simpa [encodeValue, List.length_append, beBytes_length] using hj
    by_cases h4 : j < 4
    · refine ⟨.Protocol "truncated response", ?_⟩
      have hread : readU32 ((beBytes 4 ss.length ++ (ss.map encString).flatten).take j)
          = .error (.Protocol "truncated response") :=
        readU32_short _
          (by simp only [List.length_take, List.length_append, beBytes_length]; omega)
      simp only [encodeValue, decodeValue, hread]
    · have hX : (beBytes 4 ss.length ++ (ss.map encString).flatten).take j
          = beBytes 4 ss.length ++ ((ss.map encString).flatten).take (j - 4) := by
        rw [take_append_right_of_le _ _ j (by rw [beBytes_length]; omega), beBytes_length]
      have hr : readU32 ((beBytes 4 ss.length ++ (ss.map encString).flatten).take j)
          = .ok (ss.length, ((ss.map encString).flatten).take (j - 4)) := by
        rw [hX]
        exact readU32_beBytes ss.length _ (by omega)
      obtain ⟨e, he⟩ := decN_trunc decodeString encString ss
        (fun s hs r => decodeString_enc s r (hw2 s hs).1 (hw2 s hs).2)
        (fun s hs j2 hj3 => decodeString_trunc s (hw2 s hs).1 j2 hj3)
        (j - 4) (by omega)
      refine ⟨e, ?_⟩
      simp only [encodeValue, decodeValue, hr, he]
      rfl
  case arr2DF32.Array2DF32 rows =>
    simp only [wfValue, Bool.and_eq_true, decide_eq_true_eq, List.all_eq_true,
      decide_eq_true_eq, Bool.and_eq_true] at hw
    obtain ⟨⟨hr32, hc32⟩, hrows⟩ := hw
    have hlen : ∀ row ∈ rows, row.length = numCols rows := fun row h => (hrows row h).1
    have hflat : rows.flatten.length = rows.length * numCols rows :=
      flatten_length_const rows (numCols rows) hlen
    have hP : ((rows.flatten.map (beBytes 4)).flatten).length = rows.flatten.length * 4 :=
      flatten_map_length (beBytes 4) 4 (fun x => beBytes_length 4 x) rows.flatten
    have hj2 : j < 4 + (4 + rows.flatten.length * 4) := by
      have h0 := hj
      simp only [encodeValue, List.length_append, beBytes_length, hP] at h0
      omega
    by_cases h4 : j < 4
    · refine ⟨.Protocol "truncated response", ?_⟩
      have hread : readU32 ((encodeValue (NanonisValue.Array2DF32 rows)).take j)
          = .error (.Protocol "truncated response") :=
        readU32_short _ (by
          simp only [encodeValue, List.length_take, List.length_append, beBytes_length]
          omega)
      simp only [decodeValue, hread]
    · by_cases h8 : j < 8
      · refine ⟨.Protocol "truncated response", ?_⟩
        have hX : (encodeValue (NanonisValue.Array2DF32 rows)).take j
            = beBytes 4 rows.length ++ (beBytes 4 (numCols rows)).take (j - 4) := by
          show (beBytes 4 rows.length ++ beBytes 4 (numCols rows)
            ++ (rows.flatten.map (beBytes 4)).flatten).take j = _
          rw [List.append_assoc]
          rw [take_append_right_of_le _ _ j (by rw [beBytes_length]; omega), beBytes_length,
            take_append_left_of_le _ _ (j - 4) (by rw [beBytes_length]; omega)]
        have hr1 : readU32 ((encodeValue (NanonisValue.Array2DF32 rows)).take j)
            = .ok (rows.length, (beBytes 4 (numCols rows)).take (j - 4)) := by
          rw [hX]
          exact readU32_beBytes rows.length _ (by omega)
        have hr2 : readU32 ((beBytes 4 (numCols rows)).take (j - 4))
            = .error (.Protocol "truncated response") :=
          readU32_short _ (by simp only [List.length_take, beBytes_length]; omega)
        simp only [decodeValue, hr1, hr2]
      · refine ⟨.Protocol "truncated response", ?_⟩
        have hX : (encodeValue (NanonisValue.Array2DF32 rows)).take j
            = beBytes 4 rows.length ++ (beBytes 4 (numCols rows)
              ++ ((rows.flatten.map (beBytes 4)).flatten).take (j - 8)) := by
          show (beBytes 4 rows.length ++ beBytes 4 (numCols rows)
            ++ (rows.flatten.map (beBytes 4)).flatten).take j = _
          rw [List.append_assoc]
          rw [take_append_right_of_le _ _ j (by rw [beBytes_length]; omega), beBytes_length,
            take_append_right_of_le _ _ (j - 4) (by rw [beBytes_length]; omega), beBytes_length]
          have h44 : j - 4 - 4 = j - 8 := by omega
          rw [h44]
        have hr1 : readU32 ((encodeValue (NanonisValue.Array2DF32 rows)).take j)
            = .ok (rows.length, beBytes 4 (numCols rows)
                ++ ((rows.flatten.map (beBytes 4)).flatten).take (j - 8)) := by
          rw [hX]
          exact readU32_beBytes rows.length _ (by omega)
        have hr2 : readU32 (beBytes 4 (numCols rows)
              ++ ((rows.flatten.map (beBytes 4)).flatten).take (j - 8))
            = .ok (numCols rows, ((rows.flatten.map (beBytes 4)).flatten).take (j - 8)) :=
          readU32_beBytes (numCols rows) _ (by omega)
        rw [hflat] at hj2 hP
        have hdec : decN (decScalar 4 id) (rows.length * numCols rows)
            (((rows.flatten.map (beBytes 4)).flatten).take (j - 8))
            = .error (.Protocol "truncated response") :=
          decN_scalar_short 4 id _ _ (by rw [List.length_take, hP]; omega)
        simp only [decodeValue, hr1, hr2, hdec]
        rfl

-- ==================== Body-level lemmas ====================

/-- The encoded body of a fully tag-matching pair list is the concatenation
of the per-value encodings, in order. -/
theorem encodeBody_ok (pairs : List (NanonisValue × TypeCode))
    (h : ∀ p ∈ pairs, codeMatches p.2 p.1 = true) :
    encodeBody pairs = .ok ((pairs.map (fun p => encodeValue p.1)).flatten) := by
  induction pairs with
  | nil => rfl
  | cons p ps ih =>
    obtain ⟨v, c⟩ := p
    unfold encodeBody
    rw [if_pos (h (v, c) (by simp))]
    rw [ih (fun q hq => h q (List.mem_cons_of_mem _ hq))]
    simp

theorem decodeValues_enc (pairs : List (NanonisValue × TypeCode)) (rest : List Nat)
    (h : ∀ p ∈ pairs, codeMatches p.2 p.1 = true ∧ wfValue p.1 = true) :
    decodeValues (pairs.map Prod.snd) ((pairs.map (fun p => encodeValue p.1)).flatten ++ rest)
      = .ok (pairs.map Prod.fst, rest) := by
  induction pairs with
  | nil => simp [decodeValues]
  | cons p ps ih =>
    obtain ⟨v, c⟩ := p
    simp only [List.map_cons, List.flatten_cons, List.append_assoc]
    unfold decodeValues
    rw [decode_encodeValue c v (h (v, c) (by simp)).1 (h (v, c) (by simp)).2]
    show (match decodeValues (ps.map Prod.snd) ((ps.map (fun p => encodeValue p.1)).flatten ++ rest) with
      | Except.error e => Except.error e
      | Except.ok (vs, bs2) => Except.ok (v :: vs, bs2)) = _
    rw [ih (fun q hq => h q (List.mem_cons_of_mem _ hq))]

/-- Decoding the exact encoded body of a matching, well-formed pair list
reproduces the values, in the order of the codes. -/
theorem decodeBody_enc (pairs : List (NanonisValue × TypeCode))
    (h : ∀ p ∈ pairs, codeMatches p.2 p.1 = true ∧ wfValue p.1 = true) :
    decodeBody (pairs.map Prod.snd) ((pairs.map (fun p => encodeValue p.1)).flatten)
      = .ok (pairs.map Prod.fst) := by
  unfold decodeBody
  have h1 := decodeValues_enc pairs [] h
  rw [List.append_nil] at h1
  rw [h1]
  rfl

/-- Prepending one matching, well-formed encoded value to a body shifts
`decodeBody` by consing the value. -/
theorem decodeBody_cons_enc (c : TypeCode) (v : NanonisValue) (cs : List TypeCode)
    (tail : List Nat) (hm : codeMatches c v = true) (hw : wfValue v = true) :
    decodeBody (c :: cs) (encodeValue v ++ tail)
      = (decodeBody cs tail).map (fun vs => v :: vs) := by
  have h1 : decodeValues (c :: cs) (encodeValue v ++ tail)
      = match decodeValues cs tail with
        | Except.error e => Except.error e
        | Except.ok (vs, rem) => Except.ok (v :: vs, rem) := by
    show (match decodeValue c (encodeValue v ++ tail) with
      | Except.error e => Except.error e
      | Except.ok (v2, bs1) =>
        match decodeValues cs bs1 with
        | Except.error e => Except.error e
        | Except.ok (vs, bs2) => Except.ok (v2 :: vs, bs2)) = _
    rw [decode_encodeValue c v hm hw]
  unfold decodeBody
  rw [h1]
  cases hd : decodeValues cs tail with
  | error e => simp [Except.map]
  | ok q =>
    obtain ⟨vs, rem⟩ := q
    cases rem with
    | nil => simp [Except.map]
    | cons b rem => simp [Except.map]

/-- Proper prefixes of an encoded body never decode: the truncated-response
condition at body level. -/
theorem decodeBody_trunc (pairs : List (NanonisValue × TypeCode))
    (h : ∀ p ∈ pairs, codeMatches p.2 p.1 = true ∧ wfValue p.1 = true)
    (j : Nat) (hj : j < ((pairs.map (fun p => encodeValue p.1)).flatten).length) :
    ∃ e, decodeBody (pairs.map Prod.snd)
        (((pairs.map (fun p => encodeValue p.1)).flatten).take j) = .error e := by
  induction pairs generalizing j with
  | nil => simp at hj
  | cons p ps ih =>
    obtain ⟨v, c⟩ := p
    simp only [List.map_cons, List.flatten_cons] at hj ⊢
    by_cases hcase : j < (encodeValue v).length
    · obtain ⟨e, he⟩ := decodeValue_trunc c v (h (v, c) (by simp)).1 (h (v, c) (by simp)).2 j hcase
      refine ⟨e, ?_⟩
      rw [take_append_left_of_le _ _ j (le_of_lt hcase)]
      unfold decodeBody decodeValues
      simp only [he]
    · have hx : ((encodeValue v ++ (ps.map (fun p => encodeValue p.1)).flatten).take j)
          = encodeValue v
            ++ ((ps.map (fun p => encodeValue p.1)).flatten).take (j - (encodeValue v).length) :=
        take_append_right_of_le _ _ j (by omega)
      have hj2 : j - (encodeValue v).length
          < ((ps.map (fun p => encodeValue p.1)).flatten).length := by
        simp only [List.length_append] at hj
        omega
      obtain ⟨e, he⟩ := ih (fun q hq => h q (List.mem_cons_of_mem _ hq))
        (j - (encodeValue v).length) hj2
      refine ⟨e, ?_⟩
      rw [hx, decodeBody_cons_enc c v _ _ (h (v, c) (by simp)).1 (h (v, c) (by simp)).2, he]
      rfl

/-- Bytes left over after all result codes are satisfied are rejected: the
trailing-bytes condition at body level. -/
theorem decodeBody_trailing (pairs : List (NanonisValue × TypeCode)) (extra : List Nat)
    (h : ∀ p ∈ pairs, codeMatches p.2 p.1 = true ∧ wfValue p.1 = true)
    (hx : extra ≠ []) :
    decodeBody (pairs.map Prod.snd) ((pairs.map (fun p => encodeValue p.1)).flatten ++ extra)
      = .error (.Protocol "trailing bytes after all result codes") := by
  unfold decodeBody
  rw [decodeValues_enc pairs extra h]
  simp only
  rw [if_neg (by simpa using hx)]

theorem decodeValues_length (cs : List TypeCode) : ∀ (bs : List Nat)
    (vs : List NanonisValue) (rest : List Nat),
    decodeValues cs bs = .ok (vs, rest) → vs.length = cs.length := by
  induction cs with
  | nil =>
    intro bs vs rest h
    unfold decodeValues at h
    simp only [Except.ok.injEq, Prod.mk.injEq] at h
    simp [← h.1]
  | cons c cs ih =>
    intro bs vs rest h
    unfold decodeValues at h
    cases h1 : decodeValue c bs with
    | error e => rw [h1] at h; simp at h
    | ok p =>
      obtain ⟨v, bs1⟩ := p
      rw [h1] at h
      simp only at h
      cases h2 : decodeValues cs bs1 with
      | error e => rw [h2] at h; simp at h
      | ok q =>
        obtain ⟨vs2, bs2⟩ := q
        rw [h2] at h
        simp only [Except.ok.injEq, Prod.mk.injEq] at h
        obtain ⟨ha, hb⟩ := h
        subst ha
        simp [ih bs1 vs2 bs2 h2]

theorem parseTypeCodes_length (ss : List String) (cs : List TypeCode)
    (h : parseTypeCodes ss = .ok cs) : cs.length = ss.length := by
  induction ss generalizing cs with
  | nil =>
    unfold parseTypeCodes at h
    simp at h
    simp [← h]
  | cons s ss ih =>
    unfold parseTypeCodes at h
    cases h1 : parseTypeCode s with
    | error e => rw [h1] at h; simp at h
    | ok c =>
      rw [h1] at h
      simp only at h
      cases h2 : parseTypeCodes ss with
      | error e => rw [h2] at h; simp at h
      | ok cs2 =>
        rw [h2] at h
        simp only at h
        rw [← Except.ok.inj h]
        simp [ih cs2 h2]

-- ==================== Error-classification lemmas ====================

theorem inCategory_io (c : String) : inExactlyOneCategory (.Io c) := rfl

theorem inCategory_timeout (w : String) : inExactlyOneCategory (.Timeout w) := rfl

theorem inCategory_protocol (m : String) : inExactlyOneCategory (.Protocol m) := rfl

theorem inCategory_server (c : Int) (m : String) : inExactlyOneCategory (.Server c m) := rfl

theorem is_protocol_inCategory (e : NanonisError) (h : e.is_protocol = true) :
    inExactlyOneCategory e := by
  cases e
  case Protocol m => rfl
  all_goals first | rfl | simp [NanonisError.is_protocol] at h

theorem except_map_error_elim (f : α → β) (x : Except NanonisError α) (e : NanonisError)
    (h : x.map f = .error e) : x = .error e := by
  cases x with
  | error e0 => simp [Except.map] at h; rw [h]
  | ok a => simp [Except.map] at h

theorem readBytes_error (k : Nat) (bs : List Nat) (e : NanonisError)
    (h : readBytes k bs = .error e) : e = .Protocol "truncated response" := by
  unfold readBytes at h
  split at h
  · simp at h
  · exact (Except.error.inj h).symm

theorem decScalar_error (w : Nat) (conv : Nat → α) (bs : List Nat) (e : NanonisError)
    (h : decScalar w conv bs = .error e) : e = .Protocol "truncated response" := by
  unfold decScalar at h
  split at h
  next e0 heq =>
    have h1 := Except.error.inj h
    subst h1
    exact readBytes_error w bs _ heq
  next p heq => simp at h

theorem readU32_error (bs : List Nat) (e : NanonisError)
    (h : readU32 bs = .error e) : e = .Protocol "truncated response" :=
  decScalar_error 4 id bs e h

theorem decodeString_error (bs : List Nat) (e : NanonisError)
    (h : decodeString bs = .error e) : e.is_protocol = true := by
  unfold decodeString at h
  split at h
  next e0 heq =>
    have h1 := Except.error.inj h
    subst h1
    rw [readU32_error bs _ heq]
    rfl
  next n bs1 heq =>
    split at h
    next e0 heq2 =>
      have h1 := Except.error.inj h
      subst h1
      rw [readBytes_error n bs1 _ heq2]
      rfl
    next sb bs2 heq2 =>
      split at h
      · simp at h
      · rw [← Except.error.inj h]
        rfl

theorem decN_error (dec1 : List Nat → Except NanonisError (α × List Nat))
    (hd : ∀ bs e, dec1 bs = .error e → e.is_protocol = true)
    (n : Nat) (bs : List Nat) (e : NanonisError)
    (h : decN dec1 n bs = .error e) : e.is_protocol = true := by
  induction n generalizing bs with
  | zero => simp [decN] at h
  | succ n ih =>
    unfold decN at h
    split at h
    next e0 heq =>
      have h1 := Except.error.inj h
      subst h1
      exact hd bs _ heq
    next v bs1 heq =>
      split at h
      next e0 heq2 =>
        have h1 := Except.error.inj h
        subst h1
        exact ih bs1 heq2
      next vs bs2 heq2 => simp at h

theorem decodeValue_error (c : TypeCode) (bs : List Nat) (e : NanonisError)
    (h : decodeValue c bs = .error e) : e.is_protocol = true := by
  cases c
  case u16 =>
    simp only [decodeValue] at h
    rw [decScalar_error 2 id bs e (except_map_error_elim _ _ _ h)]
    rfl
  case i16 =>
    simp only [decodeValue] at h
    rw [decScalar_error 2 (sInt 32768 65536) bs e (except_map_error_elim _ _ _ h)]
    rfl
  case u32 =>
    simp only [decodeValue] at h
    rw [decScalar_error 4 id bs e (except_map_error_elim _ _ _ h)]
    rfl
  case i32 =>
    simp only [decodeValue] at h
    rw [decScalar_error 4 (sInt 2147483648 4294967296) bs e (except_map_error_elim _ _ _ h)]
    rfl
  case f32 =>
    simp only [decodeValue] at h
    rw [decScalar_error 4 id bs e (except_map_error_elim _ _ _ h)]
    rfl
  case f64 =>
    simp only [decodeValue] at h
    rw [decScalar_error 8 id bs e (except_map_error_elim _ _ _ h)]
    rfl
  case str =>
    simp only [decodeValue] at h
    exact decodeString_error bs e (except_map_error_elim _ _ _ h)
  case arrU16 =>
    simp only [decodeValue] at h
    split at h
    next e0 heq =>
      have h1 := Except.error.inj h
      subst h1
      rw [decScalar_error 4 id bs _ heq]
      rfl
    next n bs1 heq =>
      exact decN_error _ (fun b e2 he => by rw [decScalar_error 2 id b e2 he]; rfl) _ _ e
        (except_map_error_elim _ _ _ h)
  case arrI16 =>
    simp only [decodeValue] at h
    split at h
    next e0 heq =>
      have h1 := Except.error.inj h
      subst h1
      rw [decScalar_error 4 id bs _ heq]
      rfl
    next n bs1 heq =>
      exact decN_error _ (fun b e2 he => by
        rw [decScalar_error 2 (sInt 32768 65536) b e2 he]; rfl) _ _ e
        (except_map_error_elim _ _ _ h)
  case arrU32 =>
    simp only [decodeValue] at h
    split at h
    next e0 heq =>
      have h1 := Except.error.inj h
      subst h1
      rw [decScalar_error 4 id bs _ heq]
      rfl
    next n bs1 heq =>
      exact decN_error _ (fun b e2 he => by rw [decScalar_error 4 id b e2 he]; rfl) _ _ e
        (except_map_error_elim _ _ _ h)
  case arrI32 =>
    simp only [decodeValue] at h
    split at h
    next e0 heq =>
      have h1 := Except.error.inj h
      subst h1
      rw [decScalar_error 4 id bs _ heq]
      rfl
    next n bs1 heq =>
      exact decN_error _ (fun b e2 he => by
        rw [decScalar_error 4 (sInt 2147483648 4294967296) b e2 he]; rfl) _ _ e
        (except_map_error_elim _ _ _ h)
  case arrF32 =>
    simp only [decodeValue] at h
    split at h
    next e0 heq =>
      have h1 := Except.error.inj h
      subst h1
      rw [decScalar_error 4 id bs _ heq]
      rfl
    next n bs1 heq =>
      exact decN_error _ (fun b e2 he => by rw [decScalar_error 4 id b e2 he]; rfl) _ _ e
        (except_map_error_elim _ _ _ h)
  case arrF64 =>
    simp only [decodeValue] at h
    split at h
    next e0 heq =>
      have h1 := Except.error.inj h
      subst h1
      rw [decScalar_error 4 id bs _ heq]
      rfl
    next n bs1 heq =>
      exact decN_error _ (fun b e2 he => by rw [decScalar_error 8 id b e2 he]; rfl) _ _ e
        (except_map_error_elim _ _ _ h)
  case arrStr =>
    simp only [decodeValue] at h
    split at h
    next e0 heq =>
      have h1 := Except.error.inj h
      subst h1
      rw [decScalar_error 4 id bs _ heq]
      rfl
    next n bs1 heq =>
      exact decN_error _ (fun b e2 he => decodeString_error b e2 he) _ _ e
        (except_map_error_elim _ _ _ h)
  case arr2DF32 =>
    simp only [decodeValue] at h
    split at h
    next e0 heq =>
      have h1 := Except.error.inj h
      subst h1
      rw [decScalar_error 4 id bs _ heq]
      rfl
    next r bs1 heq =>
      split at h
      next e0 heq2 =>
        have h1 := Except.error.inj h
        subst h1
        rw [decScalar_error 4 id _ _ heq2]
        rfl
      next c2 bs2 heq2 =>
        exact decN_error _ (fun b e2 he => by rw [decScalar_error 4 id b e2 he]; rfl) _ _ e
          (except_map_error_elim _ _ _ h)

theorem decodeValues_error (cs : List TypeCode) : ∀ (bs : List Nat) (e : NanonisError),
    decodeValues cs bs = .error e → e.is_protocol = true := by
  induction cs with
  | nil =>
    intro bs e h
    unfold decodeValues at h
    simp at h
  | cons c cs ih =>
    intro bs e h
    unfold decodeValues at h
    split at h
    next e0 heq =>
      have h1 := Except.error.inj h
      subst h1
      exact decodeValue_error c bs _ heq
    next v bs1 heq =>
      split at h
      next e0 heq2 =>
        have h1 := Except.error.inj h
        subst h1
        exact ih bs1 _ heq2
      next vs bs2 heq2 => simp at h

theorem decodeBody_error (cs : List TypeCode) (bs : List Nat) (e : NanonisError)
    (h : decodeBody cs bs = .error e) : e.is_protocol = true := by
  unfold decodeBody at h
  split at h
  next e0 heq =>
    have h1 := Except.error.inj h
    subst h1
    exact decodeValues_error cs bs _ heq
  next vs rest heq =>
    split at h
    · simp at h
    · rw [← Except.error.inj h]
      rfl

theorem encodeBody_error (pairs : List (NanonisValue × TypeCode)) (e : NanonisError)
    (h : encodeBody pairs = .error e) : e.is_protocol = true := by
  induction pairs with
  | nil => simp [encodeBody] at h
  | cons p ps ih =>
    obtain ⟨v, c⟩ := p
    unfold encodeBody at h
    split at h
    · split at h
      next e0 heq =>
        have h1 := Except.error.inj h
        subst h1
        exact ih heq
      next b heq => simp at h
    · rw [← Except.error.inj h]
      rfl

theorem parseTypeCode_error (s : String) (e : NanonisError)
    (h : parseTypeCode s = .error e) : e.is_protocol = true := by
  unfold parseTypeCode at h
  split at h
  · simp at h
  · rw [← Except.error.inj h]
    rfl

theorem parseTypeCodes_error (ss : List String) : ∀ (e : NanonisError),
    parseTypeCodes ss = .error e → e.is_protocol = true := by
  induction ss with
  | nil =>
    intro e h
    simp [parseTypeCodes] at h
  | cons s ss ih =>
    intro e h
    unfold parseTypeCodes at h
    split at h
    next e0 heq =>
      have h1 := Except.error.inj h
      subst h1
      exact parseTypeCode_error s _ heq
    next c heq =>
      split at h
      next e0 heq2 =>
        have h1 := Except.error.inj h
        subst h1
        exact ih _ heq2
      next cs heq2 => simp at h

-- ==================== Success-shape lemmas ====================

theorem except_map_ok_elim (f : α → β) (x : Except NanonisError α) (y : β)
    (h : x.map f = .ok y) : ∃ a, x = .ok a ∧ f a = y := by
  cases x with
  | error e => simp [Except.map] at h
  | ok a =>
    refine ⟨a, rfl, ?_⟩
    simpa [Except.map] using h

/-- A successfully decoded value carries the tag its type code prescribes. -/
theorem decodeValue_matches (c : TypeCode) (bs : List Nat) (v : NanonisValue)
    (rest : List Nat) (h : decodeValue c bs = .ok (v, rest)) : codeMatches c v = true := by
  cases c
  all_goals simp only [decodeValue] at h
  case u16 =>
    obtain ⟨a, ha, hf⟩ := except_map_ok_elim _ _ _ h
    simp only [Prod.mk.injEq] at hf
    rw [← hf.1]
    rfl
  case i16 =>
    obtain ⟨a, ha, hf⟩ := except_map_ok_elim _ _ _ h
    simp only [Prod.mk.injEq] at hf
    rw [← hf.1]
    rfl
  case u32 =>
    obtain ⟨a, ha, hf⟩ := except_map_ok_elim _ _ _ h
    simp only [Prod.mk.injEq] at hf
    rw [← hf.1]
    rfl
  case i32 =>
    obtain ⟨a, ha, hf⟩ := except_map_ok_elim _ _ _ h
    simp only [Prod.mk.injEq] at hf
    rw [← hf.1]
    rfl
  case f32 =>
    obtain ⟨a, ha, hf⟩ := except_map_ok_elim _ _ _ h
    simp only [Prod.mk.injEq] at hf
    rw [← hf.1]
    rfl
  case f64 =>
    obtain ⟨a, ha, hf⟩ := except_map_ok_elim _ _ _ h
    simp only [Prod.mk.injEq] at hf
    rw [← hf.1]
    rfl
  case str =>
    obtain ⟨a, ha, hf⟩ := except_map_ok_elim _ _ _ h
    simp only [Prod.mk.injEq] at hf
    rw [← hf.1]
    rfl
  case arrU16 =>
    split at h
    next e0 heq => simp at h
    next n bs1 heq =>
      obtain ⟨a, ha, hf⟩ := except_map_ok_elim _ _ _ h
      simp only [Prod.mk.injEq] at hf
      rw [← hf.1]
      rfl
  case arrI16 =>
    split at h
    next e0 heq => simp at h
    next n bs1 heq =>
      obtain ⟨a, ha, hf⟩ := except_map_ok_elim _ _ _ h
      simp only [Prod.mk.injEq] at hf
      rw [← hf.1]
      rfl
  case arrU32 =>
    split at h
    next e0 heq => simp at h
    next n bs1 heq =>
      obtain ⟨a, ha, hf⟩ := except_map_ok_elim _ _ _ h
      simp only [Prod.mk.injEq] at hf
      rw [← hf.1]
      rfl
  case arrI32 =>
    split at h
    next e0 heq => simp at h
    next n bs1 heq =>
      obtain ⟨a, ha, hf⟩ := except_map_ok_elim _ _ _ h
      simp only [Prod.mk.injEq] at hf
      rw [← hf.1]
      rfl
  case arrF32 =>
    split at h
    next e0 heq => simp at h
    next n bs1 heq =>
      obtain ⟨a, ha, hf⟩ := except_map_ok_elim _ _ _ h
      simp only [Prod.mk.injEq] at hf
      rw [← hf.1]
      rfl
  case arrF64 =>
    split at h
    next e0 heq => simp at h
    next n bs1 heq =>
      obtain ⟨a, ha, hf⟩ := except_map_ok_elim _ _ _ h
      simp only [Prod.mk.injEq] at hf
      rw [← hf.1]
      rfl
  case arrStr =>
    split at h
    next e0 heq => simp at h
    next n bs1 heq =>
      obtain ⟨a, ha, hf⟩ := except_map_ok_elim _ _ _ h
      simp only [Prod.mk.injEq] at hf
      rw [← hf.1]
      rfl
  case arr2DF32 =>
    split at h
    next e0 heq => simp at h
    next r bs1 heq =>
      split at h
      next e0 heq2 => simp at h
      next c2 bs2 heq2 =>
        obtain ⟨a, ha, hf⟩ := except_map_ok_elim _ _ _ h
        simp only [Prod.mk.injEq] at hf
        rw [← hf.1]
        rfl

theorem decodeBody_ok_length (cs : List TypeCode) (bs : List Nat) (vs : List NanonisValue)
    (h : decodeBody cs bs = .ok vs) : vs.length = cs.length := by
  unfold decodeBody at h
  split at h
  next e0 heq => simp at h
  next vs2 rem heq =>
    split at h
    · rw [← Except.ok.inj h]
      exact decodeValues_length cs bs vs2 rem heq
    · simp at h

theorem decodeValues_matches (cs : List TypeCode) : ∀ (bs : List Nat)
    (vs : List NanonisValue) (rest : List Nat), decodeValues cs bs = .ok (vs, rest) →
    List.Forall₂ (fun c v => codeMatches c v = true) cs vs := by
  induction cs with
  | nil =>
    intro bs vs rest heq
    unfold decodeValues at heq
    simp only [Except.ok.injEq, Prod.mk.injEq] at heq
    rw [← heq.1]
    exact List.Forall₂.nil
  | cons c cs ih =>
    intro bs vs rest heq
    unfold decodeValues at heq
    split at heq
    next e0 heq2 => simp at heq
    next v bs1 heq2 =>
      split at heq
      next e0 heq3 => simp at heq
      next vs3 bs2 heq3 =>
        simp only [Except.ok.injEq, Prod.mk.injEq] at heq
        rw [← heq.1]
        exact List.Forall₂.cons (decodeValue_matches c bs v bs1 heq2) (ih bs1 vs3 bs2 heq3)

/-- `decodeBody` success also yields tag-correct values, pointwise in order. -/
theorem decodeBody_ok_matches (cs : List TypeCode) (bs : List Nat) (vs : List NanonisValue)
    (h : decodeBody cs bs = .ok vs) :
    List.Forall₂ (fun c v => codeMatches c v = true) cs vs := by
  unfold decodeBody at h
  split at h
  next e0 heq => simp at h
  next vs2 rem heq =>
    split at h
    · rw [← Except.ok.inj h]
      exact decodeValues_matches cs bs vs2 rem heq
    · simp at h

-- ==================== Transaction-level lemmas ====================

/-- Every error surfaced by `transact` lies in exactly one of the four
taxonomy categories. -/
theorem transact_error_category (cmd : String) (args : List NanonisValue)
    (acodes rcodes : List String) (wire : WireOutcome) (e : NanonisError)
    (h : transact cmd args acodes rcodes wire = .error e) : inExactlyOneCategory e := by
  unfold transact at h
  split at h
  · rw [← Except.error.inj h]
    exact inCategory_protocol _
  · split at h
    next e0 heq =>
      have h1 := Except.error.inj h
      subst h1
      exact is_protocol_inCategory _ (parseTypeCodes_error acodes _ heq)
    next acs heq =>
      split at h
      next e0 heq2 =>
        have h1 := Except.error.inj h
        subst h1
        exact is_protocol_inCategory _ (encodeBody_error _ _ heq2)
      next body heq2 =>
        split at h
        next ctx =>
          rw [← Except.error.inj h]
          exact inCategory_io ctx
        next w =>
          rw [← Except.error.inj h]
          exact inCategory_timeout w
        next status message body2 =>
          split at h
          · simp at h
          · split at h
            · rw [← Except.error.inj h]
              exact inCategory_server status message
            · split at h
              next e0 heq3 =>
                have h1 := Except.error.inj h
                subst h1
                exact is_protocol_inCategory _ (parseTypeCodes_error rcodes _ heq3)
              next rcs heq3 =>
                exact is_protocol_inCategory _ (decodeBody_error rcs body2 e h)

/-- A successful transaction returns exactly one decoded value per expected
result type-code. -/
theorem transact_ok_length (cmd : String) (args : List NanonisValue)
    (acodes rcodes : List String) (wire : WireOutcome) (vs : List NanonisValue)
    (h : transact cmd args acodes rcodes wire = .ok vs) : vs.length = rcodes.length := by
  unfold transact at h
  split at h
  · simp at h
  · split at h
    next e0 heq => simp at h
    next acs heq =>
      split at h
      next e0 heq2 => simp at h
      next body heq2 =>
        split at h
        next ctx => simp at h
        next w => simp at h
        next status message body2 =>
          split at h
          next hempty =>
            rw [← Except.ok.inj h]
            simp [List.isEmpty_iff.mp hempty]
          next hempty =>
            split at h
            · simp at h
            · split at h
              next e0 heq3 => simp at h
              next rcs heq3 =>
                rw [decodeBody_ok_length rcs body2 vs h, parseTypeCodes_length rcodes rcs heq3]

-- ==================== Claim theorems ====================

/-- C1: For every supported type-code and every value whose tag matches that
code (including empty strings, empty/1-element/non-empty arrays, and
multibyte UTF-8 strings), decoding the bytes produced by encoding yields the
original value: decode(encode(v, code), code) == v. -/
theorem C1_roundtrip (c : TypeCode) (v : NanonisValue)
    (hm : codeMatches c v = true) (hw : wfValue v = true) (bodyBytes : List Nat)
    (henc : encodeBody [(v, c)] = .ok bodyBytes) :
    decodeBody [c] bodyBytes = .ok [v] := by
  have hp : ∀ p ∈ [(v, c)], codeMatches p.2 p.1 = true ∧ wfValue p.1 = true := by
    intro p hmem
    simp only [List.mem_singleton] at hmem
    subst hmem
    exact ⟨hm, hw⟩
  have h1 := encodeBody_ok [(v, c)] (fun p hp2 => (hp p hp2).1)
  rw [henc] at h1
  rw [Except.ok.inj h1]
  simpa using decodeBody_enc [(v, c)] hp

/-- C1 witness: concrete round trips — a multibyte UTF-8 string (é, two
bytes), an empty string, an empty array, a 1-element array, a non-empty
array and a scalar. -/
theorem C1_roundtrip_witness :
    decodeBody [TypeCode.str] [0, 0, 0, 2, 195, 169] = .ok [NanonisValue.String [195, 169]]
      ∧ decodeBody [TypeCode.str] [0, 0, 0, 0] = .ok [NanonisValue.String []]
      ∧ decodeBody [TypeCode.arrF32] [0, 0, 0, 0] = .ok [NanonisValue.ArrayF32 []]
      ∧ decodeBody [TypeCode.arrI32] [0, 0, 0, 1, 255, 255, 255, 251]
          = .ok [NanonisValue.ArrayI32 [-5]]
      ∧ decodeBody [TypeCode.arrU16] [0, 0, 0, 2, 0, 7, 1, 0]
          = .ok [NanonisValue.ArrayU16 [7, 256]]
      ∧ decodeBody [TypeCode.i32] [255, 255, 255, 214] = .ok [NanonisValue.I32 (-42)] :=
  ⟨C1_roundtrip TypeCode.str (NanonisValue.String [195, 169]) (by decide) (by decide)
      [0, 0, 0, 2, 195, 169] (by decide),
    C1_roundtrip TypeCode.str (NanonisValue.String []) (by decide) (by decide)
      [0, 0, 0, 0] (by decide),
    C1_roundtrip TypeCode.arrF32 (NanonisValue.ArrayF32 []) (by decide) (by decide)
      [0, 0, 0, 0] (by decide),
    C1_roundtrip TypeCode.arrI32 (NanonisValue.ArrayI32 [-5]) (by decide) (by decide)
      [0, 0, 0, 1, 255, 255, 255, 251] (by decide),
    C1_roundtrip TypeCode.arrU16 (NanonisValue.ArrayU16 [7, 256]) (by decide) (by decide)
      [0, 0, 0, 2, 0, 7, 1, 0] (by decide),
    C1_roundtrip TypeCode.i32 (NanonisValue.I32 (-42)) (by decide) (by decide)
      [255, 255, 255, 214] (by decide)⟩

/-- C2: Whenever the response carries a nonzero remote status, transact
returns a Server error carrying that status code and message, and does not
attempt to decode the result body (the response body is universally
quantified: the outcome does not depend on it). -/
theorem C2_server_error (cmd : String) (args : List NanonisValue)
    (acodes rcodes : List String) (status : Int) (message : String) (body : List Nat)
    (acs : List TypeCode) (bodyBytes : List Nat)
    (hlen : args.length = acodes.length)
    (hacs : parseTypeCodes acodes = .ok acs)
    (henc : encodeBody (args.zip acs) = .ok bodyBytes)
    (hne : rcodes ≠ [])
    (hs : status ≠ 0) :
    transact cmd args acodes rcodes (.reply status message body)
      = .error (.Server status message) := by
  unfold transact
  rw [if_neg (by simp [hlen])]
  simp only [hacs, henc]
  rw [if_neg (by simpa [List.isEmpty_iff] using hne), if_pos hs]

/-- C2 witness: a synthetic response with status code 7 and message
"Invalid parameter" (and an arbitrary garbage body) yields exactly
`Server {7, "Invalid parameter"}`. -/
theorem C2_server_error_witness :
    transact "Test.Command" [] [] ["i"] (.reply 7 "Invalid parameter" [1, 2, 3])
      = .error (.Server 7 "Invalid parameter") :=
  C2_server_error "Test.Command" [] [] ["i"] 7 "Invalid parameter" [1, 2, 3] [] []
    rfl rfl rfl (by decide) (by decide)

/-- C3: decode is a total function (never panics: it always returns a value
list or an error); it fails on every proper prefix of a well-formed encoded
body (truncated response); and it fails whenever bytes remain after all
result codes are satisfied (trailing bytes). -/
theorem C3_decode_never_panics :
    (∀ (cs : List TypeCode) (bs : List Nat),
        (∃ vs, decodeBody cs bs = .ok vs) ∨ (∃ e, decodeBody cs bs = .error e))
      ∧ (∀ (pairs : List (NanonisValue × TypeCode)) (body : List Nat),
          (∀ p ∈ pairs, codeMatches p.2 p.1 = true ∧ wfValue p.1 = true) →
          encodeBody pairs = .ok body →
          ∀ j, j < body.length →
            ∃ e, decodeBody (pairs.map Prod.snd) (body.take j) = .error e)
      ∧ (∀ (cs : List TypeCode) (bs : List Nat) (vs : List NanonisValue) (rest : List Nat),
          decodeValues cs bs = .ok (vs, rest) → rest ≠ [] →
          ∃ e, decodeBody cs bs = .error e) := by
  refine ⟨?_, ?_, ?_⟩
  · intro cs bs
    cases h : decodeBody cs bs with
    | ok vs => exact Or.inl ⟨vs, rfl⟩
    | error e => exact Or.inr ⟨e, rfl⟩
  · intro pairs body hp henc j hj
    have h1 := encodeBody_ok pairs (fun p hp2 => (hp p hp2).1)
    rw [henc] at h1
    have h2 := Except.ok.inj h1
    subst h2
    exact decodeBody_trunc pairs hp j hj
  · intro cs bs vs rest hvals hne
    refine ⟨.Protocol "trailing bytes after all result codes", ?_⟩
    unfold decodeBody
    rw [hvals]
    simp only
    rw [if_neg (by simpa [List.isEmpty_iff] using hne)]

/-- C3 witness: a truncated body (2 of the 4 bytes of an i32) fails, and a
body with one trailing byte after a complete i32 fails. -/
theorem C3_decode_never_panics_witness :
    ((∃ vs, decodeBody [TypeCode.i32] [] = .ok vs)
        ∨ (∃ e, decodeBody [TypeCode.i32] [] = .error e))
      ∧ (∃ e, decodeBody [TypeCode.i32] [0, 0] = .error e)
      ∧ (∃ e, decodeBody [TypeCode.i32] [0, 0, 0, 7, 9] = .error e) :=
  ⟨C3_decode_never_panics.1 [TypeCode.i32] [],
    by
      have h := C3_decode_never_panics.2.1 [(NanonisValue.I32 7, TypeCode.i32)] [0, 0, 0, 7]
        (by decide) (by decide) 2 (by decide)
      simpa using h,
    C3_decode_never_panics.2.2 [TypeCode.i32] [0, 0, 0, 7, 9] [NanonisValue.I32 7] [9]
      (by decide) (by decide)⟩

/-- C4: If any value tag does not match its paired type-code, encoding fails
with an error in the protocol (invalid-argument) category, and no byte list
is produced: the result is an error, never a partially built body. -/
theorem C4_encode_mismatch (pairs : List (NanonisValue × TypeCode))
    (h : ∃ p ∈ pairs, codeMatches p.2 p.1 = false) :
    (∃ m, encodeBody pairs = .error (.Protocol m))
      ∧ ∀ bs, encodeBody pairs ≠ .ok bs := by
  induction pairs with
  | nil => simp at h
  | cons p ps ih =>
    obtain ⟨v, c⟩ := p
    by_cases hvc : codeMatches c v = true
    · have h2 : ∃ q ∈ ps, codeMatches q.2 q.1 = false := by
        obtain ⟨q, hq, hqf⟩ := h
        rcases List.mem_cons.mp hq with hq1 | hq2
        · rw [hq1] at hqf
          rw [hqf] at hvc
          simp at hvc
        · exact ⟨q, hq2, hqf⟩
      obtain ⟨⟨m, hm⟩, hok⟩ := ih h2
      constructor
      · refine ⟨m, ?_⟩
        unfold encodeBody
        rw [if_pos hvc, hm]
      · intro bs hbs
        unfold encodeBody at hbs
        rw [if_pos hvc, hm] at hbs
        simp at hbs
    · constructor
      · refine ⟨"Type code does not match value tag " ++ tagName v, ?_⟩
        unfold encodeBody
        rw [if_neg hvc]
      · intro bs hbs
        unfold encodeBody at hbs
        rw [if_neg hvc] at hbs
        simp at hbs

/-- C4 witness: pairing an F32 value with the i32 code fails with a protocol
error and produces no bytes. -/
theorem C4_encode_mismatch_witness :
    (∃ m, encodeBody [(NanonisValue.F32 0, TypeCode.i32)] = .error (.Protocol m))
      ∧ ∀ bs, encodeBody [(NanonisValue.F32 0, TypeCode.i32)] ≠ .ok bs :=
  C4_encode_mismatch [(NanonisValue.F32 0, TypeCode.i32)] (by decide)

/-- C5: For every transaction that completes successfully, the decoded result
list has exactly `len(resultCodes)` entries — one value per expected result
type-code, in the order of the codes (each value carries the tag its parsed
code prescribes). -/
theorem C5_result_arity (cmd : String) (args : List NanonisValue)
    (acodes rcodes : List String) (wire : WireOutcome) (vs : List NanonisValue)
    (h : transact cmd args acodes rcodes wire = .ok vs) :
    vs.length = rcodes.length
      ∧ ∀ rcs, parseTypeCodes rcodes = .ok rcs → rcodes ≠ [] →
          List.Forall₂ (fun c v => codeMatches c v = true) rcs vs := by
  unfold transact at h
  split at h
  · simp at h
  · split at h
    next e0 heq => simp at h
    next acs heq =>
      split at h
      next e0 heq2 => simp at h
      next body heq2 =>
        split at h
        next ctx => simp at h
        next w => simp at h
        next status message body2 =>
          split at h
          next hempty =>
            refine ⟨?_, ?_⟩
            · rw [← Except.ok.inj h]
              simp [List.isEmpty_iff.mp hempty]
            · intro rcs hrcs hne
              exact absurd (List.isEmpty_iff.mp hempty) hne
          next hempty =>
            split at h
            · simp at h
            · split at h
              next e0 heq3 => simp at h
              next rcs2 heq3 =>
                refine ⟨?_, ?_⟩
                · rw [decodeBody_ok_length rcs2 body2 vs h,
                    parseTypeCodes_length rcodes rcs2 heq3]
                · intro rcs hrcs hne
                  rw [hrcs] at heq3
                  rw [Except.ok.inj heq3]
                  exact decodeBody_ok_matches rcs2 body2 vs h

/-- C5 witness: the Util.VersionGet exchange decodes to exactly 4 values for
its 4 result codes, tag-correct in order. -/
theorem C5_result_arity_witness :
    ([NanonisValue.String (asciiBytes "Generic 5"),
        NanonisValue.String (asciiBytes "Nanonis SPM Control Software"),
        NanonisValue.U32 15202, NanonisValue.U32 7801].length
      = ["+*c", "+*c", "I", "I"].length)
      ∧ List.Forall₂ (fun c v => codeMatches c v = true)
          [TypeCode.str, TypeCode.str, TypeCode.u32, TypeCode.u32]
          [NanonisValue.String (asciiBytes "Generic 5"),
            NanonisValue.String (asciiBytes "Nanonis SPM Control Software"),
            NanonisValue.U32 15202, NanonisValue.U32 7801] := by
  have h := C5_result_arity "Util.VersionGet" [] [] ["+*c", "+*c", "I", "I"]
    (.reply 0 ""
      (encString (asciiBytes "Generic 5")
        ++ encString (asciiBytes "Nanonis SPM Control Software")
        ++ beBytes 4 15202 ++ beBytes 4 7801))
    [NanonisValue.String (asciiBytes "Generic 5"),
      NanonisValue.String (asciiBytes "Nanonis SPM Control Software"),
      NanonisValue.U32 15202, NanonisValue.U32 7801] (by decide)
  exact ⟨h.1, h.2 [TypeCode.str, TypeCode.str, TypeCode.u32, TypeCode.u32]
    (by decide) (by decide)⟩

/-- C6: Every error value returned by an encode, decode or transact operation
belongs to exactly one of the four taxonomy categories (Io, Timeout,
Protocol, Server); the operations are total functions, so no core operation
panics.  This is not vacuous: the embedded error enum also carries the Type
and InvalidInput constructors used elsewhere in `src/types.rs`, which these
operations never produce. -/
theorem C6_error_taxonomy :
    (∀ (pairs : List (NanonisValue × TypeCode)) (e : NanonisError),
        encodeBody pairs = .error e → inExactlyOneCategory e)
      ∧ (∀ (cs : List TypeCode) (bs : List Nat) (e : NanonisError),
          decodeBody cs bs = .error e → inExactlyOneCategory e)
      ∧ (∀ (cmd : String) (args : List NanonisValue) (acodes rcodes : List String)
          (wire : WireOutcome) (e : NanonisError),
          transact cmd args acodes rcodes wire = .error e → inExactlyOneCategory e) :=
  ⟨fun pairs e h => is_protocol_inCategory e (encodeBody_error pairs e h),
    fun cs bs e h => is_protocol_inCategory e (decodeBody_error cs bs e h),
    fun cmd args acodes rcodes wire e h =>
      transact_error_category cmd args acodes rcodes wire e h⟩

/-- C6 witness: concrete encode, decode and transact failures, each landing in
exactly one category. -/
theorem C6_error_taxonomy_witness :
    inExactlyOneCategory (.Protocol ("Type code does not match value tag " ++ tagName (.U16 0)))
      ∧ inExactlyOneCategory (.Protocol "truncated response")
      ∧ inExactlyOneCategory (.Server 7 "Invalid parameter") :=
  ⟨C6_error_taxonomy.1 [(NanonisValue.U16 0, TypeCode.i32)] _ (by decide),
    C6_error_taxonomy.2.1 [TypeCode.i32] [0] _ (by decide),
    C6_error_taxonomy.2.2 "Test.Command" [] [] ["i"]
      (.reply 7 "Invalid parameter" []) _ (by decide)⟩

/-- C7: For every NanonisValue and every per-variant accessor: if the value
tag matches the accessor variant the held value is returned unchanged,
otherwise the accessor returns a Type (TypeMismatch) error naming the
expected type and the actual tag; every accessor is a total function, so
none panics. -/
theorem C7_accessors :
    ((∀ x, (NanonisValue.F32 x).as_f32 = .ok x)
      ∧ ∀ v, tagName v ≠ "F32" →
          v.as_f32 = .error (.Type ("Expected f32, got " ++ tagName v)))
    ∧ ((∀ x, (NanonisValue.F64 x).as_f64 = .ok x)
      ∧ ∀ v, tagName v ≠ "F64" →
          v.as_f64 = .error (.Type ("Expected f64, got " ++ tagName v)))
    ∧ ((∀ x, (NanonisValue.U16 x).as_u16 = .ok x)
      ∧ ∀ v, tagName v ≠ "U16" →
          v.as_u16 = .error (.Type ("Expected u16, got " ++ tagName v)))
    ∧ ((∀ x, (NanonisValue.U32 x).as_u32 = .ok x)
      ∧ ∀ v, tagName v ≠ "U32" →
          v.as_u32 = .error (.Type ("Expected u32, got " ++ tagName v)))
    ∧ ((∀ x, (NanonisValue.I16 x).as_i16 = .ok x)
      ∧ ∀ v, tagName v ≠ "I16" →
          v.as_i16 = .error (.Type ("Expected i16, got " ++ tagName v)))
    ∧ ((∀ x, (NanonisValue.I32 x).as_i32 = .ok x)
      ∧ ∀ v, tagName v ≠ "I32" →
          v.as_i32 = .error (.Type ("Expected i32, got " ++ tagName v)))
    ∧ ((∀ s, (NanonisValue.String s).as_string = .ok s)
      ∧ ∀ v, tagName v ≠ "String" →
          v.as_string = .error (.Type ("Expected string, got " ++ tagName v)))
    ∧ ((∀ a, (NanonisValue.ArrayString a).as_string_array = .ok a)
      ∧ ∀ v, tagName v ≠ "ArrayString" →
          v.as_string_array = .error (.Type ("Expected string array, got " ++ tagName v)))
    ∧ ((∀ a, (NanonisValue.ArrayF32 a).as_f32_array = .ok a)
      ∧ ∀ v, tagName v ≠ "ArrayF32" →
          v.as_f32_array = .error (.Type ("Expected f32 array, got " ++ tagName v)))
    ∧ ((∀ a, (NanonisValue.ArrayF64 a).as_f64_array = .ok a)
      ∧ ∀ v, tagName v ≠ "ArrayF64" →
          v.as_f64_array = .error (.Type ("Expected f64 array, got " ++ tagName v)))
    ∧ ((∀ a, (NanonisValue.ArrayI32 a).as_i32_array = .ok a)
      ∧ ∀ v, tagName v ≠ "ArrayI32" →
          v.as_i32_array = .error (.Type ("Expected i32 array, got " ++ tagName v)))
    ∧ ((∀ a, (NanonisValue.Array2DF32 a).as_f32_2d_array = .ok a)
      ∧ ∀ v, tagName v ≠ "Array2DF32" →
          v.as_f32_2d_array = .error (.Type ("Expected 2D f32 array, got " ++ tagName v))) := by
  refine ⟨⟨fun x => rfl, fun v hv => ?_⟩, ⟨fun x => rfl, fun v hv => ?_⟩,
    ⟨fun x => rfl, fun v hv => ?_⟩, ⟨fun x => rfl, fun v hv => ?_⟩,
    ⟨fun x => rfl, fun v hv => ?_⟩, ⟨fun x => rfl, fun v hv => ?_⟩,
    ⟨fun s => rfl, fun v hv => ?_⟩, ⟨fun a => rfl, fun v hv => ?_⟩,
    ⟨fun a => rfl, fun v hv => ?_⟩, ⟨fun a => rfl, fun v hv => ?_⟩,
    ⟨fun a => rfl, fun v hv => ?_⟩, ⟨fun a => rfl, fun v hv => ?_⟩⟩
  all_goals cases v <;> first | rfl | exact absurd rfl hv

/-- C7 witness: each accessor at one matching and one mismatching input. -/
theorem C7_accessors_witness :
    ((NanonisValue.F32 5).as_f32 = .ok 5
      ∧ (NanonisValue.U16 3).as_f32
          = .error (.Type ("Expected f32, got " ++ tagName (NanonisValue.U16 3))))
    ∧ ((NanonisValue.F64 6).as_f64 = .ok 6
      ∧ (NanonisValue.U16 3).as_f64
          = .error (.Type ("Expected f64, got " ++ tagName (NanonisValue.U16 3))))
    ∧ ((NanonisValue.U16 7).as_u16 = .ok 7
      ∧ (NanonisValue.F32 1).as_u16
          = .error (.Type ("Expected u16, got " ++ tagName (NanonisValue.F32 1))))
    ∧ ((NanonisValue.U32 8).as_u32 = .ok 8
      ∧ (NanonisValue.F32 1).as_u32
          = .error (.Type ("Expected u32, got " ++ tagName (NanonisValue.F32 1))))
    ∧ ((NanonisValue.I16 (-2)).as_i16 = .ok (-2)
      ∧ (NanonisValue.F32 1).as_i16
          = .error (.Type ("Expected i16, got " ++ tagName (NanonisValue.F32 1))))
    ∧ ((NanonisValue.I32 (-3)).as_i32 = .ok (-3)
      ∧ (NanonisValue.F32 1).as_i32
          = .error (.Type ("Expected i32, got " ++ tagName (NanonisValue.F32 1))))
    ∧ ((NanonisValue.String [104, 105]).as_string = .ok [104, 105]
      ∧ (NanonisValue.F32 1).as_string
          = .error (.Type ("Expected string, got " ++ tagName (NanonisValue.F32 1))))
    ∧ ((NanonisValue.ArrayString [[104]]).as_string_array = .ok [[104]]
      ∧ (NanonisValue.F32 1).as_string_array
          = .error (.Type ("Expected string array, got " ++ tagName (NanonisValue.F32 1))))
    ∧ ((NanonisValue.ArrayF32 [9]).as_f32_array = .ok [9]
      ∧ (NanonisValue.F64 1).as_f32_array
          = .error (.Type ("Expected f32 array, got " ++ tagName (NanonisValue.F64 1))))
    ∧ ((NanonisValue.ArrayF64 [9]).as_f64_array = .ok [9]
      ∧ (NanonisValue.F32 1).as_f64_array
          = .error (.Type ("Expected f64 array, got " ++ tagName (NanonisValue.F32 1))))
    ∧ ((NanonisValue.ArrayI32 [-9]).as_i32_array = .ok [-9]
      ∧ (NanonisValue.F32 1).as_i32_array
          = .error (.Type ("Expected i32 array, got " ++ tagName (NanonisValue.F32 1))))
    ∧ ((NanonisValue.Array2DF32 [[1], [2]]).as_f32_2d_array = .ok [[1], [2]]
      ∧ (NanonisValue.F32 1).as_f32_2d_array
          = .error (.Type ("Expected 2D f32 array, got " ++ tagName (NanonisValue.F32 1)))) :=
  ⟨⟨C7_accessors.1.1 5, C7_accessors.1.2 (NanonisValue.U16 3) (by decide)⟩,
    ⟨C7_accessors.2.1.1 6, C7_accessors.2.1.2 (NanonisValue.U16 3) (by decide)⟩,
    ⟨C7_accessors.2.2.1.1 7, C7_accessors.2.2.1.2 (NanonisValue.F32 1) (by decide)⟩,
    ⟨C7_accessors.2.2.2.1.1 8, C7_accessors.2.2.2.1.2 (NanonisValue.F32 1) (by decide)⟩,
    ⟨C7_accessors.2.2.2.2.1.1 (-2), C7_accessors.2.2.2.2.1.2 (NanonisValue.F32 1) (by decide)⟩,
    ⟨C7_accessors.2.2.2.2.2.1.1 (-3),
      C7_accessors.2.2.2.2.2.1.2 (NanonisValue.F32 1) (by decide)⟩,
    ⟨C7_accessors.2.2.2.2.2.2.1.1 [104, 105],
      C7_accessors.2.2.2.2.2.2.1.2 (NanonisValue.F32 1) (by decide)⟩,
    ⟨C7_accessors.2.2.2.2.2.2.2.1.1 [[104]],
      C7_accessors.2.2.2.2.2.2.2.1.2 (NanonisValue.F32 1) (by decide)⟩,
    ⟨C7_accessors.2.2.2.2.2.2.2.2.1.1 [9],
      C7_accessors.2.2.2.2.2.2.2.2.1.2 (NanonisValue.F64 1) (by decide)⟩,
    ⟨C7_accessors.2.2.2.2.2.2.2.2.2.1.1 [9],
      C7_accessors.2.2.2.2.2.2.2.2.2.1.2 (NanonisValue.F32 1) (by decide)⟩,
    ⟨C7_accessors.2.2.2.2.2.2.2.2.2.2.1.1 [-9],
      C7_accessors.2.2.2.2.2.2.2.2.2.2.1.2 (NanonisValue.F32 1) (by decide)⟩,
    ⟨C7_accessors.2.2.2.2.2.2.2.2.2.2.2.1 [[1], [2]],
      C7_accessors.2.2.2.2.2.2.2.2.2.2.2.2 (NanonisValue.F32 1) (by decide)⟩⟩

/-- C8: Encoding an R×C 2D float array appends the row count R, then the
column count C, then the R*C elements flattened in row-major order (R = 0
encodes row count 0 with no payload), and decoding that encoding reproduces
the same R, C and row-major element values. -/
theorem C8_2d_array (rows : List (List Nat))
    (hw : wfValue (NanonisValue.Array2DF32 rows) = true) :
    encodeValue (NanonisValue.Array2DF32 rows)
        = beBytes 4 rows.length ++ beBytes 4 (numCols rows)
          ++ (rows.flatten.map (beBytes 4)).flatten
      ∧ decodeBody [TypeCode.arr2DF32] (encodeValue (NanonisValue.Array2DF32 rows))
          = .ok [NanonisValue.Array2DF32 rows] := by
  constructor
  · rfl
  · have hp : ∀ p ∈ [(NanonisValue.Array2DF32 rows, TypeCode.arr2DF32)],
        codeMatches p.2 p.1 = true ∧ wfValue p.1 = true := by
      intro p hmem
      simp only [List.mem_singleton] at hmem
      subst hmem
      exact ⟨rfl, hw⟩
    simpa using decodeBody_enc [(NanonisValue.Array2DF32 rows, TypeCode.arr2DF32)] hp

/-- C8 witness: a concrete 2×3 matrix and the zero-row matrix round trip,
with the documented wire layout. -/
theorem C8_2d_array_witness :
    (encodeValue (NanonisValue.Array2DF32 [[1, 2, 3], [4, 5, 6]])
        = [0, 0, 0, 2, 0, 0, 0, 3, 0, 0, 0, 1, 0, 0, 0, 2, 0, 0, 0, 3,
            0, 0, 0, 4, 0, 0, 0, 5, 0, 0, 0, 6]
      ∧ decodeBody [TypeCode.arr2DF32]
            (encodeValue (NanonisValue.Array2DF32 [[1, 2, 3], [4, 5, 6]]))
          = .ok [NanonisValue.Array2DF32 [[1, 2, 3], [4, 5, 6]]])
    ∧ (encodeValue (NanonisValue.Array2DF32 []) = [0, 0, 0, 0, 0, 0, 0, 0]
      ∧ decodeBody [TypeCode.arr2DF32] (encodeValue (NanonisValue.Array2DF32 []))
          = .ok [NanonisValue.Array2DF32 []]) :=
  ⟨⟨by decide, (C8_2d_array [[1, 2, 3], [4, 5, 6]] (by decide)).2⟩,
    ⟨by decide, (C8_2d_array [] (by decide)).2⟩⟩

/-- The response body of the spec end-to-end example: the encoded tuple
("Generic 5", "Nanonis SPM Control Software", 15202, 7801). -/
def versionGetBody : List Nat :=
  encString (asciiBytes "Generic 5")
    ++ encString (asciiBytes "Nanonis SPM Control Software")
    ++ beBytes 4 15202 ++ beBytes 4 7801

/-- C9: transact("Util.VersionGet", [], [], ["+*c","+*c","I","I"]) against a
peer whose response body is the encoded tuple ("Generic 5", "Nanonis SPM
Control Software", 15202, 7801) yields exactly those four decoded values in
order: two strings followed by two unsigned 32-bit integers. -/
theorem C9_version_get :
    encodeBody [(NanonisValue.String (asciiBytes "Generic 5"), TypeCode.str),
        (NanonisValue.String (asciiBytes "Nanonis SPM Control Software"), TypeCode.str),
        (NanonisValue.U32 15202, TypeCode.u32), (NanonisValue.U32 7801, TypeCode.u32)]
        = .ok versionGetBody
      ∧ transact "Util.VersionGet" [] [] ["+*c", "+*c", "I", "I"]
          (.reply 0 "" versionGetBody)
        = .ok [NanonisValue.String (asciiBytes "Generic 5"),
            NanonisValue.String (asciiBytes "Nanonis SPM Control Software"),
            NanonisValue.U32 15202, NanonisValue.U32 7801] := by
  constructor
  · decide
  · decide

/-- C10: For every u8 n, ChannelIndex::new(n) succeeds with ChannelIndex(n)
precisely when n ≤ 23 and fails otherwise, while the From<u8> conversion
never fails: it yields ChannelIndex(n) for n ≤ 23 and clamps to
ChannelIndex(23) for n > 23. -/
theorem C10_channel_index (n : Nat) (hn : n < 256) :
    (ChannelIndex.new n = .ok ⟨n⟩ ↔ n ≤ 23)
      ∧ (23 < n → ∃ msg, ChannelIndex.new n = .error msg)
      ∧ (n ≤ 23 → channelIndexFromU8 n = ⟨n⟩)
      ∧ (23 < n → channelIndexFromU8 n = ⟨23⟩) := by
  by_cases h23 : n ≤ 23
  · refine ⟨⟨fun _ => h23, fun _ => ?_⟩, fun hgt => absurd h23 (by omega), fun _ => ?_, fun hgt => absurd h23 (by omega)⟩
    · unfold ChannelIndex.new
      rw [if_pos h23]
    · unfold channelIndexFromU8 ChannelIndex.new
      rw [if_pos h23]
  · refine ⟨⟨fun hok => ?_, fun hle => absurd hle h23⟩,
      fun _ => ⟨"Channel index " ++ toString n ++ " out of range (0-23)", ?_⟩,
      fun hle => absurd hle h23, fun _ => ?_⟩
    · unfold ChannelIndex.new at hok
      rw [if_neg h23] at hok
      simp at hok
    · unfold ChannelIndex.new
      rw [if_neg h23]
    · unfold channelIndexFromU8 ChannelIndex.new
      rw [if_neg h23]
      simp only
      have : min 23 n = 23 := by omega
      rw [this]

/-- C10 witness: n = 5 is accepted as is; n = 200 is rejected by `new` and
clamped to 23 by the From conversion. -/
theorem C10_channel_index_witness :
    (ChannelIndex.new 5 = .ok ⟨5⟩)
      ∧ (∃ msg, ChannelIndex.new 200 = .error msg)
      ∧ channelIndexFromU8 5 = ⟨5⟩
      ∧ channelIndexFromU8 200 = ⟨23⟩ :=
  ⟨(C10_channel_index 5 (by decide)).1.mpr (by decide),
    (C10_channel_index 200 (by decide)).2.1 (by decide),
    (C10_channel_index 5 (by decide)).2.2.1 (by decide),
    (C10_channel_index 200 (by decide)).2.2.2 (by decide)⟩

end Nanonis
